import Mathlib

/-!
# cnosdb HTTP client adapter (`cnosdb/cnosdb.go`)

A shallow embedding of `NewClient`, `Client.Write`, `Client.Query` and
`Client.Close`, followed by the properties the specification states about
them.

Conventions of the embedding

* A Go `string` / `[]byte` is a list of bytes (`Bytes`).
* A Go `error` is identified with its message (`GoError`); `nil` is `none`.
* A pointer that may be `nil` is an `Option`.
* The URL parser and printer of `net/url` are parameters (`NetURL`) of the
  adapter, so that what does not depend on them is proved for every parser;
  `goURL` is the instance of the Go standard library, with `url.Parse` and
  `(*URL).String` written out, and the properties that depend on how a URL is
  printed and parsed again are proved for it.
* The network (`httpClient.Do`, `transport.CloseIdleConnections`) is a
  parameter acting on a world state (`Network`); `sentRequest` is the request
  the executor hands to the transport for the request it was given.
* The small pure library routines whose results the specification talks
  about are written out: `path.Join`, `url.Values` (`Set`, `Encode`,
  `ParseQuery`, query escaping), `Header.Set`, basic authentication and its
  decoding.
* `Ping` and `QueryAsChunk` only panic and are not embedded.
-/

namespace Cnosdb

/-! ## Strings and errors -/

/-- One byte of a Go string. -/
abbrev Byte := Fin 256

/-- A Go `string` or `[]byte`. -/
abbrev Bytes := List Byte

/-- The bytes of an ASCII literal. -/
def ascii (s : String) : Bytes := s.toList.map fun c => Fin.ofNat c.toNat

/-- A Go `error`, identified with the text its `Error()` method returns. -/
structure GoError where
  msg : Bytes
deriving DecidableEq, Repr

/-- Go `errors.New`. -/
def errorsNew (text : Bytes) : GoError := ⟨text⟩

/-! ## `bytes.Buffer` -/

/-- Go `(*bytes.Buffer).WriteString`: appends, the error is always `nil`. -/
def Buffer.WriteString (b : Bytes) (s : Bytes) : Bytes × Option GoError := (b ++ s, none)

/-- Go `(*bytes.Buffer).WriteByte`: appends, the error is always `nil`. -/
def Buffer.WriteByte (b : Bytes) (c : Byte) : Bytes × Option GoError := (b ++ [c], none)

/-! ## Points and batches (`influxdb1-client/v2`) -/

/-- A `*client.Point`, seen through the one method the adapter calls. -/
structure Point where
  PrecisionString : Bytes → Bytes

/-- A `client.BatchPoints`, seen through the three getters the adapter calls.
An entry of `Points` may be `nil`. -/
structure BatchPoints where
  Points : List (Option Point)
  Precision : Bytes
  Database : Bytes

/-- A `client.Query`. -/
structure QueryCmd where
  Command : Bytes
  Database : Bytes
deriving DecidableEq

/-- A `client.Result`. -/
structure Result where
  StatementId : Int
  Err : Bytes
deriving DecidableEq

/-- A `client.Response`. -/
structure Response where
  Results : List Result
  Err : Bytes
deriving DecidableEq

/-- The loop of `Write` (lines 70-81): every non-nil point is written with
`PrecisionString(bp.Precision())` and then a newline; a write error returns. -/
def writePoints (precision : Bytes) : List (Option Point) → Bytes → Except GoError Bytes
  | [], b => .ok b
  | none :: ps, b => writePoints precision ps b
  | some p :: ps, b =>
    match Buffer.WriteString b (p.PrecisionString precision) with
    | (_, some err) => .error err
    | (b, none) =>
      match Buffer.WriteByte b 10 with
      | (_, some err) => .error err
      | (b, none) => writePoints precision ps b

/-! ## `path.Join` -/

/-- Splits at every occurrence of `sep` (Go `strings.Split` with a one-byte
separator). -/
def splitOn (sep : Byte) : Bytes → List Bytes
  | [] => [[]]
  | c :: rest =>
    if c = sep then [] :: splitOn sep rest
    else
      match splitOn sep rest with
      | [] => [[c]]
      | s :: ss => (c :: s) :: ss

/-- The inner loop of the `..` case of `path.Clean`: from write index `w`,
step back while `w > dotdot` and the byte at `w` is not a slash. -/
def cleanBacktrack (out : Bytes) (dotdot : Nat) : Nat → Nat
  | 0 => 0
  | w + 1 => if w + 1 > dotdot ∧ out.getD (w + 1) 0 ≠ 47 then cleanBacktrack out dotdot w else w + 1

/-- One round of the loop of `path.Clean`, on the path element `elem` (a
maximal run of bytes other than the slash); the state is the output buffer and
`dotdot`. -/
def cleanStep (rooted : Bool) (st : Bytes × Nat) (elem : Bytes) : Bytes × Nat :=
  let (out, dotdot) := st
  if elem = [] then st
  else if elem = [46] then st
  else if elem = [46, 46] then
    if out.length > dotdot then
      (out.take (cleanBacktrack out dotdot (out.length - 1)), dotdot)
    else if !rooted then
      let out := if out.length > 0 then out ++ [47] else out
      let out := out ++ [46, 46]
      (out, out.length)
    else st
  else
    let out := if (rooted && out.length != 1) || (!rooted && out.length != 0) then out ++ [47] else out
    (out ++ elem, dotdot)

/-- Go `path.Clean`. -/
def pathClean (path : Bytes) : Bytes :=
  if path = [] then [46]
  else
    let rooted := path.head? = some 47
    let init : Bytes × Nat := if rooted then ([47], 1) else ([], 0)
    let out := ((splitOn 47 path).foldl (cleanStep rooted) init).1
    if out.length = 0 then [46] else out

/-- Go `path.Join`: the non-empty elements joined by slashes, then cleaned;
empty when every element is empty. -/
def pathJoin (elems : List Bytes) : Bytes :=
  if (elems.map List.length).sum = 0 then []
  else
    pathClean (elems.foldl
      (fun buf e =>
        if buf.length > 0 ∨ e ≠ [] then (if buf.length > 0 then buf ++ [47] else buf) ++ e
        else buf) [])

/-! ## `net/url`: query escaping and `url.Values` -/

/-- Go `shouldEscape(c, encodeQueryComponent)`: everything but letters,
digits and `-`, `_`, `.`, `~` is escaped. -/
def shouldEscapeQuery (c : Byte) : Bool :=
  !((97 ≤ c.val && c.val ≤ 122) || (65 ≤ c.val && c.val ≤ 90) || (48 ≤ c.val && c.val ≤ 57)
    || c = 45 || c = 95 || c = 46 || c = 126)

/-- The digit `"0123456789ABCDEF"[d]`. -/
def upperhex (d : Nat) : Byte := if d < 10 then Fin.ofNat (48 + d) else Fin.ofNat (55 + d)

/-- Go `ishex`. -/
def ishex (c : Byte) : Bool :=
  (48 ≤ c.val && c.val ≤ 57) || (97 ≤ c.val && c.val ≤ 102) || (65 ≤ c.val && c.val ≤ 70)

/-- Go `unhex`. -/
def unhex (c : Byte) : Nat :=
  if 48 ≤ c.val ∧ c.val ≤ 57 then c.val - 48
  else if 97 ≤ c.val ∧ c.val ≤ 102 then c.val - 97 + 10
  else if 65 ≤ c.val ∧ c.val ≤ 70 then c.val - 65 + 10
  else 0

/-- What `url.QueryEscape` writes for one byte: `+` for a space, `%XX` for
another byte that must be escaped, the byte itself otherwise. -/
def escapeByte (c : Byte) : Bytes :=
  if shouldEscapeQuery c then
    if c = 32 then [43] else [37, upperhex (c.val / 16), upperhex (c.val % 16)]
  else [c]

/-- Go `url.QueryEscape`. -/
def QueryEscape (s : Bytes) : Bytes := s.flatMap escapeByte

/-- Go `url.QueryUnescape`; `none` stands for the `EscapeError`. -/
def QueryUnescape : Bytes → Option Bytes
  | [] => some []
  | c :: rest =>
    if c = 37 then
      match rest with
      | a :: b :: rest2 =>
        if ishex a && ishex b then
          (QueryUnescape rest2).map (Fin.ofNat (unhex a * 16 + unhex b) :: ·)
        else none
      | _ => none
    else if c = 43 then (QueryUnescape rest).map ((32 : Byte) :: ·)
    else (QueryUnescape rest).map (c :: ·)

/-- Go string comparison `a <= b` (bytewise lexicographic). -/
def strLE : Bytes → Bytes → Bool
  | [], _ => true
  | _ :: _, [] => false
  | a :: as, b :: bs => if a < b then true else if b < a then false else strLE as bs

/-- Go `strings.Cut` with a one-byte separator: the text before the first
`sep` and the text after it (empty when there is none). -/
def cut (sep : Byte) : Bytes → Bytes × Bytes
  | [] => ([], [])
  | c :: rest => if c = sep then ([], rest) else ((cut sep rest).map (c :: ·) id)

/-- A Go `url.Values` (`map[string][]string`), kept as its (key, value)
entries: the values of a key are its entries, in order of insertion. -/
structure Values where
  entries : List (Bytes × Bytes)
deriving DecidableEq

/-- The slice `v[key]`. -/
def Values.lookup (v : Values) (key : Bytes) : List Bytes :=
  (v.entries.filter fun e => e.1 = key).map Prod.snd

/-- Go `Values.Get`: the first value of the key, or the empty string. -/
def Values.Get (v : Values) (key : Bytes) : Bytes := ((v.lookup key).head?).getD []

/-- Go `Values.Set`: `v[key] = []string{value}`. -/
def Values.Set (v : Values) (key value : Bytes) : Values :=
  ⟨(v.entries.filter fun e => e.1 ≠ key) ++ [(key, value)]⟩

/-- Go `Values.Encode`: keys in sorted order, the values of one key in their
order, `key=value` pairs escaped and separated by `&`. -/
def Values.Encode (v : Values) : Bytes :=
  (v.entries.insertionSort fun a b => strLE a.1 b.1 = true).foldl
    (fun buf kv =>
      (if buf.length > 0 then buf ++ [38] else buf) ++ QueryEscape kv.1 ++ [61] ++ QueryEscape kv.2)
    []

/-- One round of the loop of Go `parseQuery` on the text between two `&`:
a segment with a semicolon, an empty segment, and a segment whose key or value
does not unescape are skipped. -/
def parseQuerySegment (seg : Bytes) : Option (Bytes × Bytes) :=
  if (59 : Byte) ∈ seg then none
  else if seg = [] then none
  else
    match QueryUnescape (cut 61 seg).1 with
    | none => none
    | some key =>
      match QueryUnescape (cut 61 seg).2 with
      | none => none
      | some value => some (key, value)

/-- Go `url.ParseQuery`, without its error (which `URL.Query` drops). -/
def ParseQuery (query : Bytes) : Values := ⟨(splitOn 38 query).filterMap parseQuerySegment⟩

/-! ## `net/url`: the URL value -/

/-- A Go `url.Userinfo`. -/
structure Userinfo where
  username : Bytes
  password : Bytes
  passwordSet : Bool
deriving DecidableEq

/-- A Go `url.URL`. -/
structure URL where
  Scheme : Bytes
  Opaque : Bytes
  User : Option Userinfo
  Host : Bytes
  Path : Bytes
  RawPath : Bytes
  OmitHost : Bool
  ForceQuery : Bool
  RawQuery : Bytes
  Fragment : Bytes
  RawFragment : Bytes
deriving DecidableEq

/-- Go `(*URL).Query`. -/
def URL.Query (u : URL) : Values := ParseQuery u.RawQuery

/-- The two routines of `net/url` the embedding does not open: `url.Parse` and
`(*URL).String`. -/
structure NetURL where
  Parse : Bytes → Except GoError URL
  Format : URL → Bytes

/-! ## `net/http`: headers and requests -/

/-- A Go `http.Header` (`map[string][]string`), one entry per key. -/
structure Header where
  entries : List (Bytes × List Bytes)
deriving DecidableEq

/-- Go `Header.Set`, for a key already in canonical form (`Content-Type` and
`Authorization` are). -/
def Header.Set (h : Header) (key value : Bytes) : Header :=
  ⟨(h.entries.filter fun e => e.1 ≠ key) ++ [(key, [value])]⟩

/-- Go `Header.Values`: the slice `h[key]`, `none` when the key is absent. -/
def Header.Values (h : Header) (key : Bytes) : Option (List Bytes) :=
  (h.entries.find? fun e => e.1 = key).map Prod.snd

/-- The base64 digit of a 6-bit value in the standard alphabet. -/
def base64Digit (d : Nat) : Byte :=
  if d < 26 then Fin.ofNat (65 + d)
  else if d < 52 then Fin.ofNat (97 + (d - 26))
  else if d < 62 then Fin.ofNat (48 + (d - 52))
  else if d = 62 then 43
  else 47

/-- Go `base64.StdEncoding.EncodeToString`. -/
def base64Encode : Bytes → Bytes
  | [] => []
  | [a] => [base64Digit (a.val / 4), base64Digit (a.val % 4 * 16), 61, 61]
  | [a, b] =>
    [base64Digit (a.val / 4), base64Digit (a.val % 4 * 16 + b.val / 16),
      base64Digit (b.val % 16 * 4), 61]
  | a :: b :: c :: rest =>
    base64Digit (a.val / 4) :: base64Digit (a.val % 4 * 16 + b.val / 16) ::
      base64Digit (b.val % 16 * 4 + c.val / 64) :: base64Digit (c.val % 64) :: base64Encode rest

/-- Go `basicAuth` of `net/http`. -/
def basicAuth (username password : Bytes) : Bytes :=
  base64Encode (username ++ [58] ++ password)

/-- A Go `http.Request`, as far as the adapter sets it. -/
structure Request where
  Method : Bytes
  URL : URL
  Header : Header
  Body : Bytes
  Host : Bytes
deriving DecidableEq

/-- Go `(*Request).SetBasicAuth`. -/
def Request.SetBasicAuth (r : Request) (username password : Bytes) : Request :=
  { r with Header := r.Header.Set (ascii "Authorization") (ascii "Basic " ++ basicAuth username password) }

/-- Go `validMethod`: a non-empty run of token bytes. -/
def validMethod (method : Bytes) : Bool :=
  method.length > 0 && method.all fun c =>
    (97 ≤ c.val && c.val ≤ 122) || (65 ≤ c.val && c.val ≤ 90) || (48 ≤ c.val && c.val ≤ 57)
      || c ∈ ([33, 35, 36, 37, 38, 39, 42, 43, 45, 46, 94, 95, 96, 124, 126] : List Byte)

/-- The index of the last occurrence of `c`, `-1` when absent (Go
`strings.LastIndex` with a one-byte needle). -/
def lastIndex (c : Byte) (s : Bytes) : Int :=
  (s.enum.foldl (fun acc e => if e.2 = c then (e.1 : Int) else acc) (-1 : Int))

/-- Go `removeEmptyPort` of `net/http`: strips a trailing colon that stands for
an empty port. -/
def removeEmptyPort (host : Bytes) : Bytes :=
  if lastIndex 58 host > lastIndex 93 host then
    (if host.getLast? = some 58 then host.dropLast else host)
  else host

/-- Go `http.NewRequest(method, url, body)` with a `*bytes.Buffer` or
`*bytes.Reader` body: the method is checked, the URL text is parsed, the new
request has an empty header. -/
def NewRequest (L : NetURL) (method url body : Bytes) : Except GoError Request :=
  let method := if method = [] then ascii "GET" else method
  if !validMethod method then .error (errorsNew (ascii "net/http: invalid method"))
  else
    match L.Parse url with
    | .error err => .error err
    | .ok u =>
      let u := { u with Host := removeEmptyPort u.Host }
      .ok { Method := method, URL := u, Header := ⟨[]⟩, Body := body, Host := u.Host }

/-- A Go `http.Response` as the adapter reads it: the status code and what
`io.ReadAll(resp.Body)` returns. -/
structure HTTPResponse where
  StatusCode : Int
  Body : Except GoError Bytes

/-! ## Transport, executor and configuration -/

/-- A Go `tls.Config`: the flag the adapter sets and a few of the other
fields (the remaining ones are not modelled). -/
structure TLSConfig where
  ServerName : Bytes
  InsecureSkipVerify : Bool
  MinVersion : Nat
  MaxVersion : Nat
deriving DecidableEq

/-- The zero value of `tls.Config`. -/
def TLSConfig.zero : TLSConfig :=
  { ServerName := [], InsecureSkipVerify := false, MinVersion := 0, MaxVersion := 0 }

/-- A proxy function `func(*http.Request) (*url.URL, error)`. -/
abbrev ProxyFunc := Request → Except GoError (Option URL)

/-- A Go `http.Transport`, as far as the adapter sets it. -/
structure Transport where
  TLSClientConfig : Option TLSConfig
  Proxy : Option ProxyFunc

/-- A Go `http.Client`. -/
structure HTTPClient where
  Timeout : Int
  Transport : Transport

/-- A `client.HTTPConfig`. -/
structure HTTPConfig where
  Addr : Bytes
  Username : Bytes
  Password : Bytes
  UserAgent : Bytes
  Timeout : Int
  InsecureSkipVerify : Bool
  TLSConfig : Option TLSConfig
  Proxy : Option ProxyFunc

/-- The `Client` of the adapter. `httpClient.Transport` and `transport` are the
same pointer in the source. -/
structure Client where
  url : URL
  username : Bytes
  password : Bytes
  httpClient : HTTPClient
  transport : Transport

/-- The network behind the executor, acting on a world state `σ`:
`(*http.Client).Do` and `(*http.Transport).CloseIdleConnections`. -/
structure Network (σ : Type) where
  Do : HTTPClient → Request → σ → Except GoError HTTPResponse × σ
  CloseIdleConnections : Transport → σ → σ

/-- What a method of `*Client` runs on: the client behind the receiver and
the world. -/
structure State (σ : Type) where
  client : Client
  world : σ

/-! ## The adapter -/

/-- `NewClient` (lines 18-48): the client and the error it returns. -/
def NewClient (L : NetURL) (conf : HTTPConfig) : Option Client × Option GoError :=
  match L.Parse conf.Addr with
  | .error err => (none, some err)
  | .ok u =>
    if u.Scheme ≠ ascii "http" ∧ u.Scheme ≠ ascii "https" then
      let m := ascii "Unsupported protocol scheme: " ++ u.Scheme ++
        ascii ", your address must start with http:// or https://"
      (none, some (errorsNew m))
    else
      let tr : Transport :=
        { TLSClientConfig := some { TLSConfig.zero with InsecureSkipVerify := conf.InsecureSkipVerify },
          Proxy := conf.Proxy }
      let tr : Transport :=
        if conf.TLSConfig.isSome then { tr with TLSClientConfig := conf.TLSConfig } else tr
      (some
        { url := u,
          username := conf.Username,
          password := conf.Password,
          httpClient := { Timeout := conf.Timeout, Transport := tr },
          transport := tr },
        none)

/-- The request `Write` builds (lines 68-98), or the error it returns before
sending anything. -/
def writeRequest (L : NetURL) (c : Client) (bp : BatchPoints) : Except GoError Request :=
  match writePoints bp.Precision bp.Points [] with
  | .error err => .error err
  | .ok b =>
    let u := c.url
    let u := { u with Path := pathJoin [u.Path, ascii "api/v1/write"] }
    match NewRequest L (ascii "POST") (L.Format u) b with
    | .error err => .error err
    | .ok req =>
      let req := { req with Header := req.Header.Set (ascii "Content-Type") [] }
      let req := if c.username ≠ [] then req.SetBasicAuth c.username c.password else req
      let params := req.URL.Query
      let params := params.Set (ascii "db") bp.Database
      let params := params.Set (ascii "precision") bp.Precision
      .ok { req with URL := { req.URL with RawQuery := params.Encode } }

/-- What `Write` returns for the outcome of `httpClient.Do` (lines 100-116). -/
def writeResult : Except GoError HTTPResponse → Option GoError
  | .error err => some err
  | .ok resp =>
    match resp.Body with
    | .error err => some err
    | .ok body =>
      if resp.StatusCode ≠ 204 ∧ resp.StatusCode ≠ 200 then some (errorsNew body) else none

/-- `(*Client).Write` (lines 67-117): the error returned, the client and the
world afterwards. -/
def Write {σ : Type} (L : NetURL) (N : Network σ) (bp : BatchPoints) (s : State σ) :
    Option GoError × State σ :=
  match writeRequest L s.client bp with
  | .error err => (some err, s)
  | .ok req =>
    let r := N.Do s.client.httpClient req s.world
    (writeResult r.1, { s with world := r.2 })

/-- The request `Query` builds (lines 120-134), or the error it returns before
sending anything. -/
def queryRequest (L : NetURL) (c : Client) (q : QueryCmd) : Except GoError Request :=
  let u := c.url
  let u := { u with Path := pathJoin [u.Path, ascii "api/v1/sql"] }
  match NewRequest L (ascii "POST") (L.Format u) q.Command with
  | .error err => .error err
  | .ok req =>
    let req := { req with Header := req.Header.Set (ascii "Content-Type") [] }
    let req := if c.username ≠ [] then req.SetBasicAuth c.username c.password else req
    let params := req.URL.Query
    let params := params.Set (ascii "db") q.Database
    .ok { req with URL := { req.URL with RawQuery := params.Encode } }

/-- What `Query` returns for the outcome of `httpClient.Do` (lines 136-155). -/
def queryResult : Except GoError HTTPResponse → Option Response × Option GoError
  | .error err => (none, some err)
  | .ok resp =>
    match resp.Body with
    | .error err => (none, some err)
    | .ok body =>
      if resp.StatusCode ≠ 204 ∧ resp.StatusCode ≠ 200 then (none, some (errorsNew body))
      else (some { Results := [], Err := [] }, none)

/-- `(*Client).Query` (lines 119-156): the response and error returned, the
client and the world afterwards. -/
def Query {σ : Type} (L : NetURL) (N : Network σ) (q : QueryCmd) (s : State σ) :
    (Option Response × Option GoError) × State σ :=
  match queryRequest L s.client q with
  | .error err => ((none, some err), s)
  | .ok req =>
    let r := N.Do s.client.httpClient req s.world
    (queryResult r.1, { s with world := r.2 })

/-- `(*Client).Close` (lines 162-165). -/
def Close {σ : Type} (N : Network σ) (s : State σ) : Option GoError × State σ :=
  (none, { s with world := N.CloseIdleConnections s.client.transport s.world })

/-- A call of one of the three implemented methods. -/
inductive Call where
  | write (bp : BatchPoints)
  | query (q : QueryCmd)
  | close

/-- The state after one call. -/
def runCall {σ : Type} (L : NetURL) (N : Network σ) (s : State σ) : Call → State σ
  | .write bp => (Write L N bp s).2
  | .query q => (Query L N q s).2
  | .close => (Close N s).2

/-- The state after a sequence of calls. -/
def runCalls {σ : Type} (L : NetURL) (N : Network σ) (s : State σ) (calls : List Call) : State σ :=
  calls.foldl (runCall L N) s

/-! ## A library instance for running the definitions

The properties below hold for every `NetURL` and every `Network`.  To run the
definitions on examples, here are a small URL parser and printer and a network
that records the requests it receives and always answers the same way. -/

/-- The loop of Go `getScheme`, at index `i` with `rest` left to read. -/
def getSchemeFrom (rawURL : Bytes) (i : Nat) : Bytes → Option (Bytes × Bytes)
  | [] => some ([], rawURL)
  | c :: rest =>
    if (97 ≤ c.val && c.val ≤ 122) || (65 ≤ c.val && c.val ≤ 90) then getSchemeFrom rawURL (i + 1) rest
    else if (48 ≤ c.val && c.val ≤ 57) || c = 43 || c = 45 || c = 46 then
      if i = 0 then some ([], rawURL) else getSchemeFrom rawURL (i + 1) rest
    else if c = 58 then
      if i = 0 then none else some (rawURL.take i, rest)
    else some ([], rawURL)

/-- Go `getScheme` of `net/url`: the scheme before the first colon and the
rest; an empty scheme when the text does not start with one; `none` for a
leading colon. -/
def getScheme (rawURL : Bytes) : Option (Bytes × Bytes) := getSchemeFrom rawURL 0 rawURL

/-- Go `strings.ToLower` on ASCII text. -/
def toLower (s : Bytes) : Bytes :=
  s.map fun c => if 65 ≤ c.val ∧ c.val ≤ 90 then Fin.ofNat (c.val + 32) else c

/-- Go `validOptionalPort` of `net/url`: empty, or a colon and digits. -/
def validOptionalPort (port : Bytes) : Bool :=
  match port with
  | [] => true
  | c :: rest => c = 58 && rest.all fun b => 48 ≤ b.val && b.val ≤ 57

/-- The bytes `simpleParse` reads: letters, digits and `-._~/=&:?`. -/
def simpleByte (c : Byte) : Bool :=
  (97 ≤ c.val && c.val ≤ 122) || (65 ≤ c.val && c.val ≤ 90) || (48 ≤ c.val && c.val ≤ 57)
    || c ∈ ([45, 46, 95, 126, 47, 61, 38, 58, 63] : List Byte)

/-- A parser for the addresses `scheme://host[:port][/path][?query]` written
with letters, digits and `-._~/=&:?`: on them it follows `url.Parse` (scheme
in lower case, the query cut at the first `?`, the authority up to the next
slash, the port checked); every other address is refused. -/
def simpleParse (rawURL : Bytes) : Except GoError URL :=
  if !rawURL.all simpleByte then .error (errorsNew (ascii "address shape not covered"))
  else
    match getScheme rawURL with
    | none => .error (errorsNew (ascii "missing protocol scheme"))
    | some (scheme, rest) =>
      if scheme = [] then .error (errorsNew (ascii "address shape not covered"))
      else
        let force := rest.getLast? = some 63 && rest.count 63 = 1
        let pq := if force then (rest.dropLast, []) else cut 63 rest
        match pq.1 with
        | 47 :: 47 :: rest2 =>
          let authority := rest2.takeWhile fun c => c ≠ 47
          let path := rest2.dropWhile fun c => c ≠ 47
          if lastIndex 58 authority ≠ -1 &&
              !validOptionalPort (authority.drop (lastIndex 58 authority).toNat) then
            .error (errorsNew (ascii "invalid port after host"))
          else
            .ok
              { Scheme := toLower scheme, Opaque := [], User := none, Host := authority,
                Path := path, RawPath := [], OmitHost := false, ForceQuery := force,
                RawQuery := pq.2, Fragment := [], RawFragment := [] }
        | _ => .error (errorsNew (ascii "address shape not covered"))

/-- A printer following `(*URL).String` for a URL without opaque part, user,
raw path and fragment, whose host and path need no escaping, such as the URLs
`simpleParse` returns, also after their path was joined with a relative one. -/
def simpleFormat (u : URL) : Bytes :=
  (if u.Scheme ≠ [] then u.Scheme ++ [58] else []) ++
    (if u.Host ≠ [] ∨ u.Path ≠ [] then [47, 47] else []) ++ u.Host ++
    (if u.Path ≠ [] ∧ u.Path.head? ≠ some 47 ∧ u.Host ≠ [] then [47] else []) ++ u.Path ++
    (if u.ForceQuery ∨ u.RawQuery ≠ [] then 63 :: u.RawQuery else [])

/-- The library instance of the examples. -/
def simpleURL : NetURL := { Parse := simpleParse, Format := simpleFormat }

/-- A network whose world is the list of requests received so far and which
answers every request with `reply`. -/
def recordingNetwork (reply : Except GoError HTTPResponse) : Network (List Request) :=
  { Do := fun _ req w => (reply, w ++ [req]),
    CloseIdleConnections := fun _ w => w }

/-- A point whose line is `text` followed by the precision. -/
def examplePoint (text : Bytes) : Point := { PrecisionString := fun p => text ++ [32] ++ p }

/-- A configuration with every optional setting left out. -/
def exampleConfig (addr username password : Bytes) : HTTPConfig :=
  { Addr := addr, Username := username, Password := password, UserAgent := [], Timeout := 0,
    InsecureSkipVerify := false, TLSConfig := none, Proxy := none }

/-! ## Definitions used to state the properties -/

/-- The body as the specification words it: for every non-nil point, in input
order, its line at the given precision and one newline. -/
def linesOf (precision : Bytes) (points : List (Option Point)) : Bytes :=
  (points.filterMap id).flatMap fun p => p.PrecisionString precision ++ [10]

/-- The header `Write` and `Query` put on a request. -/
def requestHeader (c : Client) : Header :=
  if c.username ≠ [] then
    ((⟨[]⟩ : Header).Set (ascii "Content-Type") []).Set (ascii "Authorization")
      (ascii "Basic " ++ basicAuth c.username c.password)
  else (⟨[]⟩ : Header).Set (ascii "Content-Type") []

/-- The transport `NewClient` builds for a configuration. -/
def transportOf (conf : HTTPConfig) : Transport :=
  { TLSClientConfig :=
      match conf.TLSConfig with
      | some t => some t
      | none => some { TLSConfig.zero with InsecureSkipVerify := conf.InsecureSkipVerify },
    Proxy := conf.Proxy }

/-! ## Example data -/

/-- The base URL of the example client, as `simpleParse` returns it for
`http://host:8080/base?db=old&precision=s&rp=weekly`. -/
def exampleBase : URL :=
  { Scheme := ascii "http", Opaque := [], User := none, Host := ascii "host:8080",
    Path := ascii "/base", RawPath := [], OmitHost := false, ForceQuery := false,
    RawQuery := ascii "db=old&precision=s&rp=weekly", Fragment := [], RawFragment := [] }

/-- The configuration of the example client. -/
def exampleClientConfig (username password : Bytes) : HTTPConfig :=
  exampleConfig (ascii "http://host:8080/base?db=old&precision=s&rp=weekly") username password

/-- The client `NewClient` returns for `exampleClientConfig`. -/
def exampleClient (username password : Bytes) : Client :=
  { url := exampleBase, username := username, password := password,
    httpClient := { Timeout := 0, Transport := transportOf (exampleClientConfig username password) },
    transport := transportOf (exampleClientConfig username password) }

/-- A batch of two points around a nil entry. -/
def exampleBatch : BatchPoints :=
  { Points := [some (examplePoint (ascii "cpu v=1")), none, some (examplePoint (ascii "mem v=2"))],
    Precision := ascii "ns", Database := ascii "my db" }

/-- A query. -/
def exampleQuery : QueryCmd := { Command := ascii "SELECT 1", Database := ascii "my db" }

/-- The header of the requests of the example client `admin` / `secret`. -/
def exampleHeader : Header :=
  ⟨[(ascii "Content-Type", [[]]), (ascii "Authorization", [ascii "Basic YWRtaW46c2VjcmV0"])]⟩

/-- The request `Write` builds for `exampleBatch` on the example client. -/
def exampleWriteRequest : Request :=
  { Method := ascii "POST",
    URL := { exampleBase with
      Path := ascii "/base/api/v1/write", RawQuery := ascii "db=my+db&precision=ns&rp=weekly" },
    Header := exampleHeader,
    Body := ascii "cpu v=1 ns\nmem v=2 ns\n",
    Host := ascii "host:8080" }

/-- The request `Query` builds for `exampleQuery` on the example client. -/
def exampleQueryRequest : Request :=
  { Method := ascii "POST",
    URL := { exampleBase with
      Path := ascii "/base/api/v1/sql", RawQuery := ascii "db=my+db&precision=s&rp=weekly" },
    Header := exampleHeader,
    Body := ascii "SELECT 1",
    Host := ascii "host:8080" }

/-! ## `net/url` written out: `url.Parse` and `(*URL).String`

The two routines `NetURL` stands for, as the Go standard library has them
(Go 1.19 to 1.22: with `OmitHost`, before the stricter check of IPv6
literals). The messages of the parser's errors are shortened to their cause;
Go wraps them as `parse "<url>": <cause>`. -/

/-- The escaping modes of `net/url`. -/
inductive Encoding where
  | path
  | pathSegment
  | host
  | zone
  | userPassword
  | queryComponent
  | fragment
deriving DecidableEq

/-- Go `shouldEscape(c, mode)`. -/
def shouldEscape (c : Byte) (mode : Encoding) : Bool :=
  if (97 ≤ c.val && c.val ≤ 122) || (65 ≤ c.val && c.val ≤ 90) || (48 ≤ c.val && c.val ≤ 57) then
    false
  else if (mode = .host || mode = .zone) &&
      c ∈ ([33, 36, 38, 39, 40, 41, 42, 43, 44, 59, 61, 58, 91, 93, 60, 62, 34] : List Byte) then
    false
  else if c ∈ ([45, 95, 46, 126] : List Byte) then false
  else if c ∈ ([36, 38, 43, 44, 47, 58, 59, 61, 63, 64] : List Byte) then
    match mode with
    | .path => c = 63
    | .pathSegment => c = 47 || c = 59 || c = 44 || c = 63
    | .userPassword => c = 64 || c = 47 || c = 63 || c = 58
    | .queryComponent => true
    | .fragment => false
    | _ => true
  else if mode = .fragment && c ∈ ([33, 40, 41, 42] : List Byte) then false
  else true

/-- What Go `escape(s, mode)` writes for one byte. -/
def escapeByteIn (mode : Encoding) (c : Byte) : Bytes :=
  if c = 32 ∧ mode = .queryComponent then [43]
  else if shouldEscape c mode then [37, upperhex (c.val / 16), upperhex (c.val % 16)]
  else [c]

/-- Go `escape(s, mode)`. -/
def escape (mode : Encoding) (s : Bytes) : Bytes := s.flatMap (escapeByteIn mode)

/-- Go `unescape(s, mode)`; `none` stands for its `EscapeError` or
`InvalidHostError`. -/
def unescape (mode : Encoding) : Bytes → Option Bytes
  | [] => some []
  | c :: rest =>
    if c = 37 then
      match rest with
      | a :: b :: rest2 =>
        if !(ishex a && ishex b) then none
        else if mode = .host ∧ unhex a < 8 ∧ ¬(a = 50 ∧ b = 53) then none
        else if mode = .zone ∧ ¬(a = 50 ∧ b = 53) ∧ unhex a * 16 + unhex b ≠ 32 ∧
            shouldEscape (Fin.ofNat (unhex a * 16 + unhex b)) .host = true then none
        else (unescape mode rest2).map (Fin.ofNat (unhex a * 16 + unhex b) :: ·)
      | _ => none
    else if c = 43 then
      (unescape mode rest).map ((if mode = .queryComponent then (32 : Byte) else 43) :: ·)
    else if (mode = .host ∨ mode = .zone) ∧ c.val < 128 ∧ shouldEscape c .host = true then none
    else (unescape mode rest).map (c :: ·)

/-- Go `validEncoded(s, mode)`. -/
def validEncoded (mode : Encoding) (s : Bytes) : Bool :=
  s.all fun c =>
    c ∈ ([33, 36, 38, 39, 40, 41, 42, 43, 44, 59, 61, 58, 64, 91, 93, 37] : List Byte) ||
      !shouldEscape c mode

/-- Go `validUserinfo`. -/
def validUserinfo (s : Bytes) : Bool :=
  s.all fun c =>
    (97 ≤ c.val && c.val ≤ 122) || (65 ≤ c.val && c.val ≤ 90) || (48 ≤ c.val && c.val ≤ 57) ||
      c ∈ ([45, 46, 95, 58, 126, 33, 36, 38, 39, 40, 41, 42, 43, 44, 59, 61, 37, 64] : List Byte)

/-- Go `strings.Index(s, pat)`, counted from `k`: the first position where
`pat` starts. -/
def indexOfSub (pat : Bytes) : Bytes → Nat → Option Nat
  | [], k => if pat = [] then some k else none
  | c :: rest, k => if pat.isPrefixOf (c :: rest) then some k else indexOfSub pat rest (k + 1)

/-- Go `parseHost`. -/
def parseHost (host : Bytes) : Except GoError Bytes :=
  if host.head? = some 91 then
    if lastIndex 93 host < 0 then .error (errorsNew (ascii "missing ']' in host"))
    else if !validOptionalPort (host.drop ((lastIndex 93 host).toNat + 1)) then
      .error (errorsNew (ascii "invalid port after host"))
    else
      match indexOfSub [37, 50, 53] (host.take (lastIndex 93 host).toNat) 0 with
      | some zone =>
        match unescape .host (host.take zone) with
        | none => .error (errorsNew (ascii "invalid URL escape or character in host name"))
        | some host1 =>
          match unescape .zone ((host.take (lastIndex 93 host).toNat).drop zone) with
          | none => .error (errorsNew (ascii "invalid URL escape or character in host name"))
          | some host2 =>
            match unescape .host (host.drop (lastIndex 93 host).toNat) with
            | none => .error (errorsNew (ascii "invalid URL escape or character in host name"))
            | some host3 => .ok (host1 ++ host2 ++ host3)
      | none =>
        match unescape .host host with
        | none => .error (errorsNew (ascii "invalid URL escape or character in host name"))
        | some h => .ok h
  else if lastIndex 58 host ≠ -1 && !validOptionalPort (host.drop (lastIndex 58 host).toNat) then
    .error (errorsNew (ascii "invalid port after host"))
  else
    match unescape .host host with
    | none => .error (errorsNew (ascii "invalid URL escape or character in host name"))
    | some h => .ok h

/-- The user part of Go `parseAuthority`: the text before the last `@`. -/
def parseUserinfo (userinfo : Bytes) : Except GoError Userinfo :=
  if !validUserinfo userinfo then .error (errorsNew (ascii "net/url: invalid userinfo"))
  else if (58 : Byte) ∉ userinfo then
    match unescape .userPassword userinfo with
    | none => .error (errorsNew (ascii "invalid URL escape"))
    | some username => .ok { username := username, password := [], passwordSet := false }
  else
    match unescape .userPassword (cut 58 userinfo).1 with
    | none => .error (errorsNew (ascii "invalid URL escape"))
    | some username =>
      match unescape .userPassword (cut 58 userinfo).2 with
      | none => .error (errorsNew (ascii "invalid URL escape"))
      | some password => .ok { username := username, password := password, passwordSet := true }

/-- Go `parseAuthority`: the user, if any, and the host. -/
def parseAuthority (authority : Bytes) : Except GoError (Option Userinfo × Bytes) :=
  if lastIndex 64 authority < 0 then
    match parseHost authority with
    | .error err => .error err
    | .ok host => .ok (none, host)
  else
    match parseHost (authority.drop ((lastIndex 64 authority).toNat + 1)) with
    | .error err => .error err
    | .ok host =>
      match parseUserinfo (authority.take (lastIndex 64 authority).toNat) with
      | .error err => .error err
      | .ok user => .ok (some user, host)

/-- The zero `url.URL`. -/
def URL.zero : URL :=
  { Scheme := [], Opaque := [], User := none, Host := [], Path := [], RawPath := [],
    OmitHost := false, ForceQuery := false, RawQuery := [], Fragment := [], RawFragment := [] }

/-- Go `(*URL).setPath`. -/
def URL.setPath (u : URL) (p : Bytes) : Except GoError URL :=
  match unescape .path p with
  | none => .error (errorsNew (ascii "invalid URL escape"))
  | some path => .ok { u with Path := path, RawPath := if escape .path path = p then [] else p }

/-- Go `(*URL).setFragment`. -/
def URL.setFragment (u : URL) (f : Bytes) : Except GoError URL :=
  match unescape .fragment f with
  | none => .error (errorsNew (ascii "invalid URL escape"))
  | some frag =>
    .ok { u with Fragment := frag, RawFragment := if escape .fragment frag = f then [] else f }

/-- The query part of Go `parse`: whether the text ends in its only `?`
(`ForceQuery`), the text before the first `?`, and the query after it. -/
def splitQuery (rest : Bytes) : Bool × Bytes × Bytes :=
  if rest.getLast? = some 63 ∧ rest.count 63 = 1 then (true, rest.dropLast, [])
  else (false, (cut 63 rest).1, (cut 63 rest).2)

/-- Go `parse(rawURL, false)`: a URL text without fragment. -/
def parseNoFragment (rawURL : Bytes) : Except GoError URL :=
  if rawURL.any fun b => b.val < 32 || b = 127 then
    .error (errorsNew (ascii "net/url: invalid control character in URL"))
  else if rawURL = [42] then .ok { URL.zero with Path := [42] }
  else
    match getScheme rawURL with
    | none => .error (errorsNew (ascii "missing protocol scheme"))
    | some (scheme, rest0) =>
      let url : URL :=
        { URL.zero with
          Scheme := toLower scheme,
          ForceQuery := (splitQuery rest0).1,
          RawQuery := (splitQuery rest0).2.2 }
      let rest := (splitQuery rest0).2.1
      if rest.head? ≠ some 47 ∧ url.Scheme ≠ [] then .ok { url with Opaque := rest }
      else if rest.head? ≠ some 47 ∧ (58 : Byte) ∈ (cut 47 rest).1 then
        .error (errorsNew (ascii "first path segment in URL cannot contain colon"))
      else if (url.Scheme ≠ [] ∨ ¬ [47, 47, 47].isPrefixOf rest) ∧ [47, 47].isPrefixOf rest then
        match parseAuthority ((rest.drop 2).takeWhile fun c => c ≠ 47) with
        | .error err => .error err
        | .ok (user, host) =>
          URL.setPath { url with User := user, Host := host } ((rest.drop 2).dropWhile fun c => c ≠ 47)
      else if url.Scheme ≠ [] ∧ rest.head? = some 47 then URL.setPath { url with OmitHost := true } rest
      else URL.setPath url rest

/-- Go `url.Parse`. -/
def urlParse (rawURL : Bytes) : Except GoError URL :=
  match parseNoFragment (cut 35 rawURL).1 with
  | .error err => .error err
  | .ok url => if (cut 35 rawURL).2 = [] then .ok url else URL.setFragment url (cut 35 rawURL).2

/-- Go `(*Userinfo).String`. -/
def Userinfo.String (u : Userinfo) : Bytes :=
  escape .userPassword u.username ++
    (if u.passwordSet then 58 :: escape .userPassword u.password else [])

/-- Go `(*URL).EscapedPath`. -/
def URL.EscapedPath (u : URL) : Bytes :=
  if u.RawPath ≠ [] ∧ validEncoded .path u.RawPath = true ∧
      unescape .path u.RawPath = some u.Path then u.RawPath
  else if u.Path = [42] then [42]
  else escape .path u.Path

/-- Go `(*URL).EscapedFragment`. -/
def URL.EscapedFragment (u : URL) : Bytes :=
  if u.RawFragment ≠ [] ∧ validEncoded .fragment u.RawFragment = true ∧
      unescape .fragment u.RawFragment = some u.Fragment then u.RawFragment
  else escape .fragment u.Fragment

/-- The authority Go `(*URL).String` writes after `//`: the user with `@`, if
any, and the escaped host. -/
def URL.authorityText (u : URL) : Bytes :=
  (match u.User with
    | some ui => ui.String ++ [64]
    | none => []) ++ escape .host u.Host

/-- The part of Go `(*URL).String` before the query, for a URL without opaque
part: scheme, authority and path. -/
def URL.hierText (u : URL) : Bytes :=
  let buf : Bytes := if u.Scheme ≠ [] then u.Scheme ++ [58] else []
  let buf : Bytes :=
    if u.Scheme ≠ [] ∨ u.Host ≠ [] ∨ u.User.isSome then
      if u.OmitHost ∧ u.Host = [] ∧ u.User.isNone then buf
      else (if u.Host ≠ [] ∨ u.Path ≠ [] ∨ u.User.isSome then buf ++ [47, 47] else buf) ++
        u.authorityText
    else buf
  let buf : Bytes :=
    if u.EscapedPath ≠ [] ∧ u.EscapedPath.head? ≠ some 47 ∧ u.Host ≠ [] then buf ++ [47] else buf
  let buf : Bytes :=
    if buf = [] ∧ (58 : Byte) ∈ (cut 47 u.EscapedPath).1 then buf ++ [46, 47] else buf
  buf ++ u.EscapedPath

/-- Go `(*URL).String`. -/
def urlString (u : URL) : Bytes :=
  (if u.Opaque ≠ [] then (if u.Scheme ≠ [] then u.Scheme ++ [58] else []) ++ u.Opaque
    else u.hierText) ++
    (if u.ForceQuery ∨ u.RawQuery ≠ [] then 63 :: u.RawQuery else []) ++
    (if u.Fragment ≠ [] then 35 :: u.EscapedFragment else [])

/-- The `net/url` of the Go standard library. -/
def goURL : NetURL := { Parse := urlParse, Format := urlString }

/-! ## `net/http`: what the executor sends, and reading basic authentication -/

/-- Go `Header.Get`: the first value of the key, or the empty string. -/
def Header.Get (h : Header) (key : Bytes) : Bytes :=
  match h.Values key with
  | some (v :: _) => v
  | _ => []

/-- The request `(*http.Client).Do` hands to the transport (`send` in
`net/http/client.go`): when the URL carries user information and the request
has no `Authorization` header, basic authentication is set from the URL. -/
def sentRequest (req : Request) : Request :=
  match req.URL.User with
  | some u =>
    if req.Header.Get (ascii "Authorization") = [] then
      { req with
        Header := req.Header.Set (ascii "Authorization")
          (ascii "Basic " ++ basicAuth u.username u.password) }
    else req
  | none => req

/-- The 6-bit value of a base64 digit of the standard alphabet. -/
def base64Value (c : Byte) : Option Nat :=
  if 65 ≤ c.val ∧ c.val ≤ 90 then some (c.val - 65)
  else if 97 ≤ c.val ∧ c.val ≤ 122 then some (c.val - 97 + 26)
  else if 48 ≤ c.val ∧ c.val ≤ 57 then some (c.val - 48 + 52)
  else if c = 43 then some 62
  else if c = 47 then some 63
  else none

/-- Go `base64.StdEncoding.DecodeString` on text without line breaks: groups
of four digits, the last one padded with `=`. -/
def base64DecodeQuads : Bytes → Option Bytes
  | [] => some []
  | a :: b :: c :: d :: rest =>
    match base64Value a, base64Value b with
    | some x, some y =>
      match base64Value c, base64Value d with
      | some z, some w =>
        (base64DecodeQuads rest).map fun t =>
          Fin.ofNat (x * 4 + y / 16) :: Fin.ofNat (y % 16 * 16 + z / 4) ::
            Fin.ofNat (z % 4 * 64 + w) :: t
      | some z, none =>
        if d = 61 ∧ rest = [] then
          some [Fin.ofNat (x * 4 + y / 16), Fin.ofNat (y % 16 * 16 + z / 4)]
        else none
      | none, _ => if c = 61 ∧ d = 61 ∧ rest = [] then some [Fin.ofNat (x * 4 + y / 16)] else none
    | _, _ => none
  | _ => none

/-- Go `base64.StdEncoding.DecodeString`: line breaks are skipped. -/
def base64Decode (s : Bytes) : Option Bytes :=
  base64DecodeQuads (s.filter fun c => c ≠ 10 ∧ c ≠ 13)

/-- Go `parseBasicAuth` of `net/http`, which `(*Request).BasicAuth` applies to
the `Authorization` header: the user name and password, when the value is
`Basic ` and the base64 text of `username:password`. -/
def parseBasicAuth (auth : Bytes) : Option (Bytes × Bytes) :=
  if auth.length < 6 ∨ toLower (auth.take 6) ≠ toLower (ascii "Basic ") then none
  else
    match base64Decode (auth.drop 6) with
    | none => none
    | some cs => if (58 : Byte) ∈ cs then some (cut 58 cs) else none

/-- A network over a transport that records the requests it is handed, that
is the requests as sent, and always answers with `reply`. -/
def transportNetwork (reply : Except GoError HTTPResponse) : Network (List Request) :=
  { Do := fun _ req w => (reply, w ++ [sentRequest req]),
    CloseIdleConnections := fun _ w => w }

/-! ## Example data for the Go `net/url` -/

/-- The `Authorization` values of a request. -/
def authorizationOf (r : Request) : Option (List Bytes) := r.Header.Values (ascii "Authorization")

/-- The configuration with the address `http://user:pw@h/base` and no
username. -/
def userinfoConfig : HTTPConfig := exampleConfig (ascii "http://user:pw@h/base") [] []

/-- The client `NewClient` returns for `userinfoConfig`. -/
def userinfoClient : Client :=
  { url :=
      { URL.zero with
        Scheme := ascii "http",
        User := some { username := ascii "user", password := ascii "pw", passwordSet := true },
        Host := ascii "h", Path := ascii "/base" },
    username := [], password := [],
    httpClient := { Timeout := 0, Transport := transportOf userinfoConfig },
    transport := transportOf userinfoConfig }

/-- A path made absolute, as `(*URL).String` prints it after a host: a slash
is put in front unless it starts with one. -/
def absPath (p : Bytes) : Bytes := if p.head? = some 47 then p else 47 :: p

/-! ## Lemmas -/

set_option maxRecDepth 100000 in
theorem hex_facts : ∀ c : Byte,
    ishex (upperhex (c.val / 16)) = true ∧ ishex (upperhex (c.val % 16)) = true ∧
      (Fin.ofNat (unhex (upperhex (c.val / 16)) * 16 + unhex (upperhex (c.val % 16))) : Byte) = c := by
  decide

theorem cut_append (sep : Byte) (a b : Bytes) (h : sep ∉ a) : cut sep (a ++ sep :: b) = (a, b) := by
  induction a with
  | nil => simp [cut]
  | cons c a ih =>
    have hc : c ≠ sep := fun e => h (by simp [e])
    have ha : sep ∉ a := fun e => h (by simp [e])
    simp [cut, hc, ih ha]

theorem writePoints_eq (precision : Bytes) (ps : List (Option Point)) (b : Bytes) :
    writePoints precision ps b = .ok (b ++ linesOf precision ps) := by
  induction ps generalizing b with
  | nil => simp [writePoints, linesOf]
  | cons p ps ih =>
    cases p with
    | none => simpa [writePoints, linesOf] using ih b
    | some p =>
      simp only [writePoints, Buffer.WriteString, Buffer.WriteByte]
      rw [ih]
      simp [linesOf, List.append_assoc]

theorem NewRequest_post (L : NetURL) (url body : Bytes) :
    NewRequest L (ascii "POST") url body =
      match L.Parse url with
      | .error err => .error err
      | .ok u =>
        .ok { Method := ascii "POST", URL := { u with Host := removeEmptyPort u.Host },
              Header := ⟨[]⟩, Body := body, Host := removeEmptyPort u.Host } := by
  have h1 : ascii "POST" ≠ [] := by decide
  have h2 : validMethod (ascii "POST") = true := by decide
  simp only [NewRequest, h1, if_false, h2]
  rfl

theorem writeRequest_ok (L : NetURL) (c : Client) (bp : BatchPoints) (req : Request)
    (h : writeRequest L c bp = .ok req) :
    ∃ u, L.Parse (L.Format { c.url with Path := pathJoin [c.url.Path, ascii "api/v1/write"] }) = .ok u ∧
      req =
        { Method := ascii "POST",
          URL := { u with
            Host := removeEmptyPort u.Host,
            RawQuery := (((ParseQuery u.RawQuery).Set (ascii "db") bp.Database).Set
              (ascii "precision") bp.Precision).Encode },
          Header := requestHeader c,
          Body := linesOf bp.Precision bp.Points,
          Host := removeEmptyPort u.Host } := by
  simp only [writeRequest, writePoints_eq, NewRequest_post, List.nil_append] at h
  cases hp : L.Parse (L.Format { c.url with Path := pathJoin [c.url.Path, ascii "api/v1/write"] }) with
  | error e => rw [hp] at h; simp at h
  | ok u =>
    rw [hp] at h
    refine ⟨u, rfl, ?_⟩
    simp only [Except.ok.injEq] at h
    rw [← h]
    unfold requestHeader
    by_cases hu : c.username = []
    · simp [hu, URL.Query]
    · simp [hu, URL.Query, Request.SetBasicAuth]

theorem queryRequest_ok (L : NetURL) (c : Client) (q : QueryCmd) (req : Request)
    (h : queryRequest L c q = .ok req) :
    ∃ u, L.Parse (L.Format { c.url with Path := pathJoin [c.url.Path, ascii "api/v1/sql"] }) = .ok u ∧
      req =
        { Method := ascii "POST",
          URL := { u with
            Host := removeEmptyPort u.Host,
            RawQuery := ((ParseQuery u.RawQuery).Set (ascii "db") q.Database).Encode },
          Header := requestHeader c,
          Body := q.Command,
          Host := removeEmptyPort u.Host } := by
  simp only [queryRequest, NewRequest_post] at h
  cases hp : L.Parse (L.Format { c.url with Path := pathJoin [c.url.Path, ascii "api/v1/sql"] }) with
  | error e => rw [hp] at h; simp at h
  | ok u =>
    rw [hp] at h
    refine ⟨u, rfl, ?_⟩
    simp only [Except.ok.injEq] at h
    rw [← h]
    unfold requestHeader
    by_cases hu : c.username = []
    · simp [hu, URL.Query]
    · simp [hu, URL.Query, Request.SetBasicAuth]

theorem NewClient_of_parse (L : NetURL) (conf : HTTPConfig) (u : URL)
    (hp : L.Parse conf.Addr = .ok u) :
    NewClient L conf =
      if u.Scheme ≠ ascii "http" ∧ u.Scheme ≠ ascii "https" then
        (none, some (errorsNew (ascii "Unsupported protocol scheme: " ++ u.Scheme ++
          ascii ", your address must start with http:// or https://")))
      else
        (some
          { url := u, username := conf.Username, password := conf.Password,
            httpClient := { Timeout := conf.Timeout, Transport := transportOf conf },
            transport := transportOf conf },
          none) := by
  unfold NewClient transportOf
  rw [hp]
  cases hT : conf.TLSConfig <;> simp [hT]

theorem NewClient_ok (L : NetURL) (conf : HTTPConfig) (c : Client)
    (hc : NewClient L conf = (some c, none)) :
    ∃ u, L.Parse conf.Addr = .ok u ∧ (u.Scheme = ascii "http" ∨ u.Scheme = ascii "https") ∧
      c = { url := u, username := conf.Username, password := conf.Password,
            httpClient := { Timeout := conf.Timeout, Transport := transportOf conf },
            transport := transportOf conf } := by
  cases hp : L.Parse conf.Addr with
  | error e => simp [NewClient, hp] at hc
  | ok u =>
    rw [NewClient_of_parse L conf u hp] at hc
    by_cases hs : u.Scheme ≠ ascii "http" ∧ u.Scheme ≠ ascii "https"
    · simp [hs] at hc
    · rw [if_neg hs] at hc
      refine ⟨u, rfl, by tauto, ?_⟩
      simp only [Prod.mk.injEq, Option.some.injEq, and_true] at hc
      exact hc.symm

theorem Write_sends {σ : Type} (L : NetURL) (N : Network σ) (bp : BatchPoints) (s : State σ)
    (req : Request) (h : writeRequest L s.client bp = .ok req) :
    Write L N bp s =
      (writeResult (N.Do s.client.httpClient req s.world).1,
        { s with world := (N.Do s.client.httpClient req s.world).2 }) := by
  simp [Write, h]

theorem Query_sends {σ : Type} (L : NetURL) (N : Network σ) (q : QueryCmd) (s : State σ)
    (req : Request) (h : queryRequest L s.client q = .ok req) :
    Query L N q s =
      (queryResult (N.Do s.client.httpClient req s.world).1,
        { s with world := (N.Do s.client.httpClient req s.world).2 }) := by
  simp [Query, h]

theorem Write_client {σ : Type} (L : NetURL) (N : Network σ) (bp : BatchPoints) (s : State σ) :
    (Write L N bp s).2.client = s.client := by
  unfold Write
  split <;> rfl

theorem Query_client {σ : Type} (L : NetURL) (N : Network σ) (q : QueryCmd) (s : State σ) :
    (Query L N q s).2.client = s.client := by
  unfold Query
  split <;> rfl

theorem runCalls_client {σ : Type} (L : NetURL) (N : Network σ) (calls : List Call) (s : State σ) :
    (runCalls L N s calls).client = s.client := by
  induction calls generalizing s with
  | nil => rfl
  | cons call calls ih =>
    simp only [runCalls, List.foldl_cons] at ih ⊢
    rw [ih]
    cases call with
    | write bp => exact Write_client L N bp s
    | query q => exact Query_client L N q s
    | close => rfl

theorem cut_of_not_mem (sep : Byte) (a : Bytes) (h : sep ∉ a) : cut sep a = (a, []) := by
  induction a with
  | nil => simp [cut]
  | cons c a ih =>
    have hc : c ≠ sep := fun e => h (by simp [e])
    have ha : sep ∉ a := fun e => h (by simp [e])
    simp [cut, hc, ih ha]

theorem cut_append_left (sep : Byte) (a b : Bytes) (h : sep ∉ a) :
    cut sep (a ++ b) = (a ++ (cut sep b).1, (cut sep b).2) := by
  induction a with
  | nil => simp
  | cons c a ih =>
    have hc : c ≠ sep := fun e => h (by simp [e])
    have ha : sep ∉ a := fun e => h (by simp [e])
    simp [cut, hc, ih ha]

set_option maxRecDepth 100000 in
set_option maxHeartbeats 2000000 in
theorem escapeByteIn_host_all : ∀ c : Byte,
    (escapeByteIn .host c).all (fun b => b != 47 && b != 63 && b != 35 && b != 64) = true := by
  decide

set_option maxRecDepth 100000 in
set_option maxHeartbeats 2000000 in
theorem escapeByteIn_user_all : ∀ c : Byte,
    (escapeByteIn .userPassword c).all
      (fun b => b != 47 && b != 63 && b != 35 && b != 64 && b != 58) = true := by
  decide

set_option maxRecDepth 100000 in
set_option maxHeartbeats 2000000 in
theorem escapeByteIn_path_all : ∀ c : Byte,
    (escapeByteIn .path c).all (fun b => b != 63 && b != 35) = true := by
  decide

set_option maxRecDepth 100000 in
theorem validEncoded_path_byte : ∀ c : Byte,
    (c ∈ ([33, 36, 38, 39, 40, 41, 42, 43, 44, 59, 61, 58, 64, 91, 93, 37] : List Byte) ||
      !shouldEscape c .path) = true → c ≠ 63 ∧ c ≠ 35 := by
  decide

set_option maxRecDepth 100000 in
theorem path_plain_facts : ∀ c : Byte, shouldEscape c .path = false → c ≠ 37 := by
  decide

theorem escape_host_safe (s : Bytes) (b : Byte) (hb : b ∈ escape .host s) :
    b ≠ 47 ∧ b ≠ 63 ∧ b ≠ 35 ∧ b ≠ 64 := by
  simp only [escape, List.mem_flatMap] at hb
  obtain ⟨c, -, hc⟩ := hb
  have h := escapeByteIn_host_all c
  rw [List.all_eq_true] at h
  have := h b hc
  simp at this
  tauto

theorem escape_user_safe (s : Bytes) (b : Byte) (hb : b ∈ escape .userPassword s) :
    b ≠ 47 ∧ b ≠ 63 ∧ b ≠ 35 ∧ b ≠ 64 ∧ b ≠ 58 := by
  simp only [escape, List.mem_flatMap] at hb
  obtain ⟨c, -, hc⟩ := hb
  have h := escapeByteIn_user_all c
  rw [List.all_eq_true] at h
  have := h b hc
  simp at this
  tauto

theorem escape_path_safe (s : Bytes) (b : Byte) (hb : b ∈ escape .path s) : b ≠ 63 ∧ b ≠ 35 := by
  simp only [escape, List.mem_flatMap] at hb
  obtain ⟨c, -, hc⟩ := hb
  have h := escapeByteIn_path_all c
  rw [List.all_eq_true] at h
  have := h b hc
  simp at this
  tauto

theorem validEncoded_path_safe (s : Bytes) (hv : validEncoded .path s = true) (b : Byte)
    (hb : b ∈ s) : b ≠ 63 ∧ b ≠ 35 := by
  simp only [validEncoded, List.all_eq_true] at hv
  exact validEncoded_path_byte b (hv b hb)

theorem unescape_path_plain (c : Byte) (rest : Bytes) (h37 : c ≠ 37) :
    unescape .path (c :: rest) = (unescape .path rest).map (c :: ·) := by
  rw [unescape.eq_def]
  by_cases h43 : c = 43
  · subst h43; simp
  · simp [h37, h43]

theorem unescape_path_percent (a b : Byte) (rest : Bytes) (ha : ishex a = true)
    (hb : ishex b = true) :
    unescape .path (37 :: a :: b :: rest) =
      (unescape .path rest).map (Fin.ofNat (unhex a * 16 + unhex b) :: ·) := by
  rw [unescape.eq_def]; simp [ha, hb]

theorem unescape_path_escapeByteIn (c : Byte) (rest : Bytes) :
    unescape .path (escapeByteIn .path c ++ rest) = (unescape .path rest).map (c :: ·) := by
  unfold escapeByteIn
  by_cases hs : shouldEscape c .path = true
  · obtain ⟨h1, h2, h3⟩ := hex_facts c
    simp only [hs, if_true, reduceCtorEq, and_false, if_false, List.cons_append, List.nil_append]
    rw [unescape_path_percent _ _ _ h1 h2, h3]
  · have hs' : shouldEscape c .path = false := by simpa using hs
    simp only [hs', reduceCtorEq, and_false, if_false, Bool.false_eq_true, List.singleton_append]
    exact unescape_path_plain c rest (path_plain_facts c hs')

theorem unescape_path_escape (s : Bytes) : unescape .path (escape .path s) = some s := by
  induction s with
  | nil => simp [escape, unescape]
  | cons c s ih =>
    have : escape .path (c :: s) = escapeByteIn .path c ++ escape .path s := by simp [escape]
    rw [this, unescape_path_escapeByteIn, ih]
    rfl

set_option maxRecDepth 100000 in
theorem escapeByteIn_path_head : ∀ c : Byte,
    (escapeByteIn .path c).head? = some 47 ↔ c = 47 := by
  decide

theorem escape_path_head (s : Bytes) : (escape .path s).head? = some 47 ↔ s.head? = some 47 := by
  cases s with
  | nil => simp [escape]
  | cons c s =>
    have : escape .path (c :: s) = escapeByteIn .path c ++ escape .path s := by simp [escape]
    rw [this]
    have hne : escapeByteIn .path c ≠ [] := by
      unfold escapeByteIn; split <;> [simp; (split <;> simp)]
    have h1 := escapeByteIn_path_head c
    cases he : escapeByteIn .path c with
    | nil => exact absurd he hne
    | cons x xs =>
      rw [he] at h1
      simpa using h1

theorem unescape_path_slash (rest : Bytes) :
    unescape .path (47 :: rest) = (unescape .path rest).map ((47 : Byte) :: ·) :=
  unescape_path_plain 47 rest (by decide)

/-- What is known of the escaped path of a URL whose raw path, if any, starts
with a slash. -/
theorem EscapedPath_facts (t : URL) (hraw : t.RawPath = [] ∨ t.RawPath.head? = some 47) :
    unescape .path t.EscapedPath = some t.Path ∧ (63 : Byte) ∉ t.EscapedPath ∧
      (35 : Byte) ∉ t.EscapedPath ∧
      (t.EscapedPath.head? = some 47 ↔ t.Path.head? = some 47) ∧
      (t.Path ≠ [] → t.EscapedPath ≠ []) := by
  unfold URL.EscapedPath
  by_cases h1 : t.RawPath ≠ [] ∧ validEncoded .path t.RawPath = true ∧
      unescape .path t.RawPath = some t.Path
  · rw [if_pos h1]
    obtain ⟨hne, hv, hu⟩ := h1
    have hhead : t.RawPath.head? = some 47 := by
      rcases hraw with h | h
      · exact absurd h hne
      · exact h
    refine ⟨hu, fun h => (validEncoded_path_safe _ hv _ h).1 rfl,
      fun h => (validEncoded_path_safe _ hv _ h).2 rfl, ?_, fun _ => hne⟩
    cases hr : t.RawPath with
    | nil => exact absurd hr hne
    | cons x xs =>
      rw [hr] at hhead hu
      simp only [List.head?_cons, Option.some.injEq] at hhead
      subst hhead
      rw [unescape_path_slash] at hu
      cases hx : unescape .path xs with
      | none => rw [hx] at hu; simp at hu
      | some p =>
        rw [hx] at hu
        simp only [Option.map_some', Option.some.injEq] at hu
        rw [← hu]
        simp
  · rw [if_neg h1]
    by_cases h2 : t.Path = [42]
    · rw [if_pos h2, h2]
      refine ⟨by rw [unescape_path_plain 42 [] (by decide)]; rfl, by decide, by decide, by decide,
        fun _ => by decide⟩
    · rw [if_neg h2]
      refine ⟨unescape_path_escape _, fun h => (escape_path_safe _ _ h).1 rfl,
        fun h => (escape_path_safe _ _ h).2 rfl, escape_path_head _, ?_⟩
      intro hp he
      have := unescape_path_escape t.Path
      rw [he] at this
      simp [unescape] at this
      exact hp this

theorem getScheme_http (r : Bytes) :
    getScheme (ascii "http" ++ 58 :: r) = some (ascii "http", r) := by
  rfl

theorem getScheme_https (r : Bytes) :
    getScheme (ascii "https" ++ 58 :: r) = some (ascii "https", r) := by
  rfl

theorem splitQuery_before (Y Q : Bytes) (hY : (63 : Byte) ∉ Y)
    (hQ : Q = [] ∨ ∃ q, Q = 63 :: q) : (splitQuery (Y ++ Q)).2.1 = Y := by
  unfold splitQuery
  rcases hQ with hQ | ⟨q, hQ⟩
  · subst hQ
    rw [List.append_nil]
    have hno : ¬((Y.getLast? = some 63) ∧ Y.count 63 = 1) := by
      rintro ⟨hl, -⟩
      exact hY (List.mem_of_getLast?_eq_some hl)
    rw [if_neg hno, cut_of_not_mem 63 Y hY]
  · subst hQ
    by_cases hc : (Y ++ 63 :: q).getLast? = some 63 ∧ (Y ++ 63 :: q).count 63 = 1
    · rw [if_pos hc]
      obtain ⟨hl, hcount⟩ := hc
      have hq : q = [] := by
        by_contra hne
        have hlq : q.getLast? = some 63 := by
          have : (Y ++ 63 :: q).getLast? = q.getLast? := by
            rw [List.getLast?_append_of_ne_nil _ (by simp)]
            cases q with
            | nil => exact absurd rfl hne
            | cons x xs => simp [List.getLast?_cons_cons]
          rw [this] at hl
          exact hl
        have hmem : (63 : Byte) ∈ q := List.mem_of_getLast?_eq_some hlq
        have : 0 < q.count 63 := List.count_pos_iff.mpr hmem
        simp [List.count_append, List.count_cons] at hcount
        omega
      subst hq
      simp
    · rw [if_neg hc, cut_append 63 Y q hY]

theorem takeWhile_authority (A P : Bytes) (hA : (47 : Byte) ∉ A) (hP : P = [] ∨ P.head? = some 47) :
    (A ++ P).takeWhile (fun c => c ≠ 47) = A ∧ (A ++ P).dropWhile (fun c => c ≠ 47) = P := by
  induction A with
  | nil =>
    rcases hP with h | h
    · subst h; simp
    · cases P with
      | nil => simp
      | cons x xs =>
        simp only [List.head?_cons, Option.some.injEq] at h
        subst h
        simp
  | cons c A ih =>
    have hc : c ≠ 47 := fun e => hA (by simp [e])
    have hA2 : (47 : Byte) ∉ A := fun e => hA (by simp [e])
    obtain ⟨i1, i2⟩ := ih hA2
    simpa [List.takeWhile_cons, List.dropWhile_cons, hc] using And.intro i1 i2

theorem toLower_http : toLower (ascii "http") = ascii "http" ∧ toLower (ascii "https") = ascii "https" := by
  decide

theorem scheme_facts (scheme : Bytes) (hs : scheme = ascii "http" ∨ scheme = ascii "https") :
    toLower scheme = scheme ∧ scheme ≠ [] ∧ (35 : Byte) ∉ scheme ∧
      ∀ r, scheme ++ 58 :: r ≠ [42] ∧ getScheme (scheme ++ 58 :: r) = some (scheme, r) := by
  rcases hs with h | h <;> subst h
  · refine ⟨toLower_http.1, by decide, by decide, fun r => ⟨?_, getScheme_http r⟩⟩
    intro e
    have := congrArg List.length e
    simp [ascii] at this
  · refine ⟨toLower_http.2, by decide, by decide, fun r => ⟨?_, getScheme_https r⟩⟩
    intro e
    have := congrArg List.length e
    simp [ascii] at this

/-- Parsing a text `scheme://authority/path?query` of an `http` or `https`
URL: when it succeeds, the authority was parsed from the text up to the path
and the path is the unescaped path text. -/
theorem parseNoFragment_hier (scheme A P Q : Bytes)
    (hs : scheme = ascii "http" ∨ scheme = ascii "https")
    (hA47 : (47 : Byte) ∉ A) (hA63 : (63 : Byte) ∉ A)
    (hP : P.head? = some 47) (hP63 : (63 : Byte) ∉ P)
    (hQ : Q = [] ∨ ∃ q, Q = 63 :: q) (u : URL)
    (h : parseNoFragment (scheme ++ 58 :: ((47 :: 47 :: (A ++ P)) ++ Q)) = .ok u) :
    ∃ user host path, parseAuthority A = .ok (user, host) ∧ unescape .path P = some path ∧
      u.Path = path ∧ u.User = user ∧ u.Host = host := by
  obtain ⟨hlow, hne, -, hr⟩ := scheme_facts scheme hs
  obtain ⟨hstar, hgs⟩ := hr ((47 :: 47 :: (A ++ P)) ++ Q)
  have hY : (63 : Byte) ∉ (47 :: 47 :: (A ++ P)) := by
    simp only [List.mem_cons, List.mem_append, not_or]
    exact ⟨by decide, by decide, hA63, hP63⟩
  have hsq := splitQuery_before _ Q hY hQ
  obtain ⟨htw, hdw⟩ := takeWhile_authority A P hA47 (Or.inr hP)
  unfold parseNoFragment at h
  by_cases hctl : ((scheme ++ 58 :: ((47 :: 47 :: (A ++ P)) ++ Q)).any
      fun b => decide (b.val < 32) || decide (b = 127)) = true
  · rw [if_pos hctl] at h
    simp at h
  · rw [if_neg hctl, if_neg hstar, hgs] at h
    simp only [hsq, hlow] at h
    have hhead : (47 :: 47 :: (A ++ P)).head? = some 47 := rfl
    rw [if_neg (by simp), if_neg (by simp)] at h
    have hpre : ([47, 47] : Bytes).isPrefixOf (47 :: 47 :: (A ++ P)) = true := by
      simp [List.isPrefixOf]
    rw [if_pos ⟨Or.inl hne, hpre⟩] at h
    have hdrop : (47 :: 47 :: (A ++ P)).drop 2 = A ++ P := rfl
    rw [hdrop, htw, hdw] at h
    cases hpa : parseAuthority A with
    | error e => rw [hpa] at h; simp at h
    | ok r =>
      obtain ⟨user, host⟩ := r
      rw [hpa] at h
      simp only [URL.setPath] at h
      cases hup : unescape .path P with
      | none => rw [hup] at h; simp at h
      | some path =>
        rw [hup] at h
        simp only [Except.ok.injEq] at h
        refine ⟨user, host, path, rfl, rfl, ?_, ?_, ?_⟩ <;> rw [← h]

theorem lastIndex_foldl_not_mem (c : Byte) (s : Bytes) (n : Nat) (acc : Int) (h : c ∉ s) :
    (s.enumFrom n).foldl (fun acc e => if e.2 = c then (e.1 : Int) else acc) acc = acc := by
  induction s generalizing n acc with
  | nil => rfl
  | cons x s ih =>
    have hx : x ≠ c := fun e => h (by simp [e])
    have hs : c ∉ s := fun e => h (by simp [e])
    simp only [List.enumFrom_cons, List.foldl_cons, hx, if_false]
    exact ih (n + 1) acc hs

theorem lastIndex_foldl_nonneg (c : Byte) (s : Bytes) (n : Nat) (acc : Int)
    (h : 0 ≤ acc ∨ c ∈ s) :
    0 ≤ (s.enumFrom n).foldl (fun acc e => if e.2 = c then (e.1 : Int) else acc) acc := by
  induction s generalizing n acc with
  | nil =>
    rcases h with h | h
    · exact h
    · simp at h
  | cons x s ih =>
    simp only [List.enumFrom_cons, List.foldl_cons]
    by_cases hx : x = c
    · simp only [hx, if_true]
      exact ih (n + 1) _ (Or.inl (Int.ofNat_nonneg n))
    · simp only [hx, if_false]
      apply ih
      rcases h with h | h
      · exact Or.inl h
      · right
        simpa [Ne.symm hx] using h

theorem lastIndex_neg_iff (c : Byte) (s : Bytes) : lastIndex c s < 0 ↔ c ∉ s := by
  unfold lastIndex List.enum
  constructor
  · intro h hm
    have := lastIndex_foldl_nonneg c s 0 (-1) (Or.inr hm)
    omega
  · intro h
    rw [lastIndex_foldl_not_mem c s 0 (-1) h]
    decide

theorem parseAuthority_user (A : Bytes) (user : Option Userinfo) (host : Bytes)
    (h : parseAuthority A = .ok (user, host)) : user ≠ none ↔ (64 : Byte) ∈ A := by
  unfold parseAuthority at h
  by_cases hl : lastIndex 64 A < 0
  · rw [if_pos hl] at h
    have hno := (lastIndex_neg_iff 64 A).mp hl
    cases hp : parseHost A with
    | error e => rw [hp] at h; simp at h
    | ok hst =>
      rw [hp] at h
      simp only [Except.ok.injEq, Prod.mk.injEq] at h
      rw [← h.1]
      simp [hno]
  · rw [if_neg hl] at h
    have hyes : (64 : Byte) ∈ A := by
      by_contra hcon
      exact hl ((lastIndex_neg_iff 64 A).mpr hcon)
    cases hp : parseHost (A.drop ((lastIndex 64 A).toNat + 1)) with
    | error e => rw [hp] at h; simp at h
    | ok hst =>
      rw [hp] at h
      simp only at h
      cases hu : parseUserinfo (A.take (lastIndex 64 A).toNat) with
      | error e => rw [hu] at h; simp at h
      | ok ui =>
        rw [hu] at h
        simp only [Except.ok.injEq, Prod.mk.injEq] at h
        rw [← h.1]
        simp [hyes]

theorem authorityText_at (t : URL) : (64 : Byte) ∈ t.authorityText ↔ t.User ≠ none := by
  unfold URL.authorityText
  have hhost : (64 : Byte) ∉ escape .host t.Host := fun hb => (escape_host_safe _ _ hb).2.2.2 rfl
  cases t.User with
  | none => simp [hhost]
  | some ui => simp

theorem Userinfo_String_safe (ui : Userinfo) (b : Byte) (hb : b ∈ ui.String) :
    b ≠ 47 ∧ b ≠ 63 ∧ b ≠ 35 ∧ b ≠ 64 := by
  unfold Userinfo.String at hb
  rw [List.mem_append] at hb
  rcases hb with hb | hb
  · have := escape_user_safe _ _ hb
    tauto
  · split at hb
    · rw [List.mem_cons] at hb
      rcases hb with hb | hb
      · subst hb; decide
      · have := escape_user_safe _ _ hb
        tauto
    · simp at hb

theorem authorityText_safe (t : URL) (b : Byte) (hb : b ∈ t.authorityText) :
    b ≠ 47 ∧ b ≠ 63 ∧ b ≠ 35 := by
  unfold URL.authorityText at hb
  rw [List.mem_append] at hb
  rcases hb with hb | hb
  · cases hu : t.User with
    | none => rw [hu] at hb; simp at hb
    | some ui =>
      rw [hu] at hb
      simp only [List.mem_append, List.mem_singleton] at hb
      rcases hb with hb | hb
      · have := Userinfo_String_safe ui b hb
        tauto
      · subst hb; decide
  · have := escape_host_safe _ _ hb
    tauto

/-- The text `(*URL).String` writes before the query for an `http` or `https`
URL with a host and a path. -/
theorem hierText_eq (t : URL) (hs : t.Scheme ≠ []) (hh : t.Host ≠ []) (he : t.EscapedPath ≠ []) :
    t.hierText =
      t.Scheme ++ 58 :: (47 :: 47 :: (t.authorityText ++
        ((if t.EscapedPath.head? = some 47 then [] else [47]) ++ t.EscapedPath))) := by
  unfold URL.hierText
  by_cases h47 : t.EscapedPath.head? = some 47
  · simp [hs, hh, he, h47]
  · simp [hs, hh, he, h47]

theorem setFragment_Path (url u : URL) (f : Bytes) (h : URL.setFragment url f = .ok u) :
    u.Path = url.Path ∧ u.User = url.User ∧ u.Host = url.Host ∧ u.Opaque = url.Opaque ∧
      u.RawPath = url.RawPath ∧ u.Scheme = url.Scheme := by
  unfold URL.setFragment at h
  cases hf : unescape .fragment f with
  | none => rw [hf] at h; simp at h
  | some frag =>
    rw [hf] at h
    simp only [Except.ok.injEq] at h
    rw [← h]
    exact ⟨rfl, rfl, rfl, rfl, rfl, rfl⟩

/-- Printing an `http` or `https` URL that has a host and a path, and parsing
the text again, gives the path made absolute, and user information iff the URL
had some. -/
theorem urlParse_urlString_Path (t u : URL)
    (hs : t.Scheme = ascii "http" ∨ t.Scheme = ascii "https") (ho : t.Opaque = [])
    (hh : t.Host ≠ []) (hp : t.Path ≠ [])
    (hraw : t.RawPath = [] ∨ t.RawPath.head? = some 47)
    (h : urlParse (urlString t) = .ok u) :
    u.Path = absPath t.Path ∧ (u.User ≠ none ↔ t.User ≠ none) := by
  obtain ⟨hun, hE63, hE35, hhead, hne⟩ := EscapedPath_facts t hraw
  have hEne := hne hp
  obtain ⟨-, hsne, hs35, -⟩ := scheme_facts t.Scheme hs
  have hA47 : (47 : Byte) ∉ t.authorityText := fun hb => (authorityText_safe t _ hb).1 rfl
  have hA63 : (63 : Byte) ∉ t.authorityText := fun hb => (authorityText_safe t _ hb).2.1 rfl
  have hA35 : (35 : Byte) ∉ t.authorityText := fun hb => (authorityText_safe t _ hb).2.2 rfl
  generalize hP : ((if t.EscapedPath.head? = some 47 then [] else [47]) ++ t.EscapedPath : Bytes) = P
  have hPhead : P.head? = some 47 := by
    rw [← hP]
    by_cases h47 : t.EscapedPath.head? = some 47
    · simp [h47]
    · simp [h47]
  have hP63 : (63 : Byte) ∉ P := by
    rw [← hP]
    simp only [List.mem_append, not_or]
    refine ⟨?_, hE63⟩
    split <;> simp
  have hP35 : (35 : Byte) ∉ P := by
    rw [← hP]
    simp only [List.mem_append, not_or]
    refine ⟨?_, hE35⟩
    split <;> simp
  have hPun : unescape .path P = some (absPath t.Path) := by
    rw [← hP]
    unfold absPath
    by_cases h47 : t.EscapedPath.head? = some 47
    · rw [if_pos h47, if_pos (hhead.mp h47)]
      simpa using hun
    · rw [if_neg h47, if_neg (fun hx => h47 (hhead.mpr hx))]
      simp only [List.singleton_append]
      rw [unescape_path_slash, hun]
      rfl
  generalize hQF : ((if t.ForceQuery ∨ t.RawQuery ≠ [] then 63 :: t.RawQuery else []) ++
      (if t.Fragment ≠ [] then 35 :: t.EscapedFragment else []) : Bytes) = QF
  have hstr : urlString t =
      (t.Scheme ++ 58 :: (47 :: 47 :: (t.authorityText ++ P))) ++ QF := by
    unfold urlString
    rw [if_neg (by simp [ho]), hierText_eq t hsne hh hEne, hP, ← hQF, List.append_assoc]
  have hno35 : (35 : Byte) ∉ t.Scheme ++ 58 :: (47 :: 47 :: (t.authorityText ++ P)) := by
    simp only [List.mem_append, List.mem_cons, not_or]
    exact ⟨hs35, by decide, by decide, by decide, hA35, hP35⟩
  have hQ : (cut 35 QF).1 = [] ∨ ∃ q, (cut 35 QF).1 = 63 :: q := by
    rw [← hQF]
    by_cases hq : t.ForceQuery ∨ t.RawQuery ≠ []
    · right
      rw [if_pos hq]
      simp only [List.cons_append, cut]
      rw [if_neg (by decide)]
      exact ⟨_, rfl⟩
    · left
      rw [if_neg hq]
      simp only [List.nil_append]
      split
      · simp [cut]
      · simp [cut]
  rw [hstr] at h
  unfold urlParse at h
  rw [cut_append_left 35 _ QF hno35] at h
  simp only [] at h
  have hshape : (t.Scheme ++ 58 :: (47 :: 47 :: (t.authorityText ++ P))) ++ (cut 35 QF).1 =
      t.Scheme ++ 58 :: ((47 :: 47 :: (t.authorityText ++ P)) ++ (cut 35 QF).1) := by
    simp [List.append_assoc]
  rw [hshape] at h
  cases hpn : parseNoFragment
      (t.Scheme ++ 58 :: ((47 :: 47 :: (t.authorityText ++ P)) ++ (cut 35 QF).1)) with
  | error e => rw [hpn] at h; simp at h
  | ok url =>
    rw [hpn] at h
    obtain ⟨user, host, path, hauth, hpath, hup, huser, -⟩ :=
      parseNoFragment_hier t.Scheme t.authorityText P (cut 35 QF).1 hs hA47 hA63 hPhead hP63 hQ
        url hpn
    rw [hPun] at hpath
    simp only [Option.some.injEq] at hpath
    have huser2 : url.User ≠ none ↔ t.User ≠ none := by
      rw [huser, parseAuthority_user _ _ _ hauth, authorityText_at]
    simp only [] at h
    split at h
    · simp only [Except.ok.injEq] at h
      rw [← h, hup, hpath]
      exact ⟨rfl, huser2⟩
    · rw [(setFragment_Path url u _ h).1, (setFragment_Path url u _ h).2.1, hup, hpath]
      exact ⟨rfl, huser2⟩

theorem dropWhile_slash_head (l : Bytes) :
    l.dropWhile (fun c => c ≠ 47) = [] ∨ (l.dropWhile fun c => c ≠ 47).head? = some 47 := by
  induction l with
  | nil => simp
  | cons c l ih =>
    by_cases hc : c = 47
    · subst hc; simp
    · simpa [List.dropWhile_cons, hc] using ih

theorem setPath_facts (url u : URL) (p : Bytes) (h : URL.setPath url p = .ok u) :
    u.Host = url.Host ∧ u.Opaque = url.Opaque ∧ (u.RawPath = [] ∨ u.RawPath = p) := by
  unfold URL.setPath at h
  cases hp : unescape .path p with
  | none => rw [hp] at h; simp at h
  | some path =>
    rw [hp] at h
    simp only [Except.ok.injEq] at h
    rw [← h]
    refine ⟨rfl, rfl, ?_⟩
    simp only
    split
    · exact Or.inl rfl
    · exact Or.inr rfl

/-- A URL `parse` returns with a host has no opaque part, and its raw path, if
any, starts with a slash. -/
theorem parseNoFragment_host_facts (raw : Bytes) (u : URL) (h : parseNoFragment raw = .ok u)
    (hh : u.Host ≠ []) : u.Opaque = [] ∧ (u.RawPath = [] ∨ u.RawPath.head? = some 47) := by
  unfold parseNoFragment at h
  split at h
  · simp at h
  · split at h
    · simp only [Except.ok.injEq] at h
      rw [← h] at hh
      exact absurd rfl hh
    · split at h
      · simp at h
      · rename_i scheme rest0 _
        simp only [] at h
        split at h
        · simp only [Except.ok.injEq] at h
          rw [← h] at hh
          exact absurd rfl hh
        · split at h
          · simp at h
          · split at h
            · split at h
              · simp at h
              · rename_i user host _
                obtain ⟨-, ho, hr⟩ := setPath_facts _ _ _ h
                refine ⟨ho, ?_⟩
                rcases hr with hr | hr
                · exact Or.inl hr
                · rw [hr]
                  exact dropWhile_slash_head _
            · split at h
              · obtain ⟨hhost, -, -⟩ := setPath_facts _ _ _ h
                rw [hhost] at hh
                exact absurd rfl hh
              · obtain ⟨hhost, -, -⟩ := setPath_facts _ _ _ h
                rw [hhost] at hh
                exact absurd rfl hh

theorem urlParse_host_facts (raw : Bytes) (u : URL) (h : urlParse raw = .ok u)
    (hh : u.Host ≠ []) : u.Opaque = [] ∧ (u.RawPath = [] ∨ u.RawPath.head? = some 47) := by
  unfold urlParse at h
  cases hp : parseNoFragment (cut 35 raw).1 with
  | error e => rw [hp] at h; simp at h
  | ok url =>
    rw [hp] at h
    simp only [] at h
    split at h
    · simp only [Except.ok.injEq] at h
      subst h
      exact parseNoFragment_host_facts _ _ hp hh
    · obtain ⟨-, -, hhost, hopq, hrp, -⟩ := setFragment_Path url u _ h
      rw [hhost] at hh
      rw [hopq, hrp]
      exact parseNoFragment_host_facts _ _ hp hh

theorem pathClean_ne_nil (p : Bytes) : pathClean p ≠ [] := by
  unfold pathClean
  by_cases hp : p = []
  · simp [hp]
  · rw [if_neg hp]
    simp only []
    generalize (List.foldl (cleanStep (decide (p.head? = some 47)))
      (if p.head? = some 47 then (([47] : Bytes), 1) else (([] : Bytes), 0)) (splitOn 47 p)).1 = out
    by_cases ho : out.length = 0
    · rw [if_pos ho]; simp
    · rw [if_neg ho]
      intro e
      rw [e] at ho
      exact ho rfl

theorem pathJoin_ne_nil (p x : Bytes) (hx : x ≠ []) : pathJoin [p, x] ≠ [] := by
  unfold pathJoin
  have : ((([p, x] : List Bytes).map List.length).sum = 0) = False := by
    simp [List.length_eq_zero, hx]
  rw [if_neg (by rw [this]; exact id)]
  exact pathClean_ne_nil _

/-! ## Lemmas on base64 and `path.Join` -/

theorem base64Value_digit : ∀ d : Fin 64, base64Value (base64Digit d.val) = some d.val := by
  decide

theorem base64Digit_not_break : ∀ d : Fin 64,
    base64Digit d.val ≠ 10 ∧ base64Digit d.val ≠ 13 ∧ base64Digit d.val ≠ 61 := by
  decide

theorem base64Value_pad : base64Value 61 = none := by decide

theorem byte_ofNat_val (a : Byte) (n : Nat) (h : n = a.val) : (Fin.ofNat n : Byte) = a := by
  subst h
  apply Fin.ext
  simp [Fin.ofNat]

theorem base64DecodeQuads_Encode (s : Bytes) : base64DecodeQuads (base64Encode s) = some s := by
  induction s using base64Encode.induct with
  | case1 => simp [base64Encode, base64DecodeQuads]
  | case2 a =>
    have h1 := base64Value_digit ⟨a.val / 4, by omega⟩
    have h2 := base64Value_digit ⟨a.val % 4 * 16, by omega⟩
    simp only at h1 h2
    simp only [base64Encode, base64DecodeQuads, h1, h2, base64Value_pad]
    simp only [and_self, if_true, Option.some.injEq, List.cons.injEq, and_true]
    exact byte_ofNat_val a _ (by omega)
  | case3 a b =>
    have h1 := base64Value_digit ⟨a.val / 4, by omega⟩
    have h2 := base64Value_digit ⟨a.val % 4 * 16 + b.val / 16, by omega⟩
    have h3 := base64Value_digit ⟨b.val % 16 * 4, by omega⟩
    simp only at h1 h2 h3
    simp only [base64Encode, base64DecodeQuads, h1, h2, h3, base64Value_pad]
    simp only [and_self, if_true, Option.some.injEq, List.cons.injEq, and_true]
    exact ⟨byte_ofNat_val a _ (by omega), byte_ofNat_val b _ (by omega)⟩
  | case4 a b c rest ih =>
    have h1 := base64Value_digit ⟨a.val / 4, by omega⟩
    have h2 := base64Value_digit ⟨a.val % 4 * 16 + b.val / 16, by omega⟩
    have h3 := base64Value_digit ⟨b.val % 16 * 4 + c.val / 64, by omega⟩
    have h4 := base64Value_digit ⟨c.val % 64, by omega⟩
    simp only at h1 h2 h3 h4
    simp only [base64Encode, base64DecodeQuads, h1, h2, h3, h4, ih, Option.map_some',
      Option.some.injEq, List.cons.injEq, and_true]
    exact ⟨byte_ofNat_val a _ (by omega), byte_ofNat_val b _ (by omega),
      byte_ofNat_val c _ (by omega)⟩

theorem base64Encode_no_break (s : Bytes) (x : Byte) (hx : x ∈ base64Encode s) :
    x ≠ 10 ∧ x ≠ 13 := by
  induction s using base64Encode.induct with
  | case1 => simp [base64Encode] at hx
  | case2 a =>
    have h1 := base64Digit_not_break ⟨a.val / 4, by omega⟩
    have h2 := base64Digit_not_break ⟨a.val % 4 * 16, by omega⟩
    simp only [base64Encode, List.mem_cons, List.mem_singleton, List.not_mem_nil, or_false] at hx
    rcases hx with h | h | h | h <;> subst h <;> first | exact ⟨h1.1, h1.2.1⟩ | exact ⟨h2.1, h2.2.1⟩ | decide
  | case3 a b =>
    have h1 := base64Digit_not_break ⟨a.val / 4, by omega⟩
    have h2 := base64Digit_not_break ⟨a.val % 4 * 16 + b.val / 16, by omega⟩
    have h3 := base64Digit_not_break ⟨b.val % 16 * 4, by omega⟩
    simp only [base64Encode, List.mem_cons, List.mem_singleton, List.not_mem_nil, or_false] at hx
    rcases hx with h | h | h | h <;> subst h <;>
      first | exact ⟨h1.1, h1.2.1⟩ | exact ⟨h2.1, h2.2.1⟩ | exact ⟨h3.1, h3.2.1⟩ | decide
  | case4 a b c rest ih =>
    have h1 := base64Digit_not_break ⟨a.val / 4, by omega⟩
    have h2 := base64Digit_not_break ⟨a.val % 4 * 16 + b.val / 16, by omega⟩
    have h3 := base64Digit_not_break ⟨b.val % 16 * 4 + c.val / 64, by omega⟩
    have h4 := base64Digit_not_break ⟨c.val % 64, by omega⟩
    simp only [base64Encode, List.mem_cons] at hx
    rcases hx with h | h | h | h | h
    · subst h; exact ⟨h1.1, h1.2.1⟩
    · subst h; exact ⟨h2.1, h2.2.1⟩
    · subst h; exact ⟨h3.1, h3.2.1⟩
    · subst h; exact ⟨h4.1, h4.2.1⟩
    · exact ih h

/-- Decoding the base64 text of `s` gives `s` back. -/
theorem base64Decode_Encode (s : Bytes) : base64Decode (base64Encode s) = some s := by
  unfold base64Decode
  have : (base64Encode s).filter (fun c => decide (c ≠ 10 ∧ c ≠ 13)) = base64Encode s := by
    rw [List.filter_eq_self]
    intro x hx
    have := base64Encode_no_break s x hx
    simpa using this
  rw [this]
  exact base64DecodeQuads_Encode s

/-- Reading back the header value `SetBasicAuth` writes: the text
`username:password` cut at its first colon. -/
theorem parseBasicAuth_basicAuth (username password : Bytes) :
    parseBasicAuth (ascii "Basic " ++ basicAuth username password) =
      some (cut 58 (username ++ [58] ++ password)) := by
  have hlen : (ascii "Basic ").length = 6 := by decide
  have htake : (ascii "Basic " ++ basicAuth username password).take 6 = ascii "Basic " := by
    rw [List.take_append_of_le_length (by rw [hlen])]
    exact List.take_of_length_le (by rw [hlen])
  have hdrop : (ascii "Basic " ++ basicAuth username password).drop 6 =
      basicAuth username password := by
    rw [← hlen]
    exact List.drop_left _ _
  unfold parseBasicAuth
  rw [htake, hdrop]
  rw [if_neg (by simp [hlen])]
  unfold basicAuth
  rw [base64Decode_Encode]
  simp

theorem requestHeader_facts (c : Client) :
    ((requestHeader c).Values (ascii "Authorization") ≠ none ↔ c.username ≠ []) ∧
      (c.username ≠ [] →
        (requestHeader c).Values (ascii "Authorization") =
            some [ascii "Basic " ++ basicAuth c.username c.password] ∧
          (requestHeader c).Get (ascii "Authorization") ≠ []) ∧
      (c.username = [] → (requestHeader c).Get (ascii "Authorization") = [] ∧
        ∀ v, ((requestHeader c).Set (ascii "Authorization") v).Values (ascii "Authorization") =
          some [v]) := by
  have hne : ascii "Content-Type" ≠ ascii "Authorization" := by decide
  unfold requestHeader
  by_cases h : c.username = []
  · simp [h, Header.Values, Header.Set, Header.Get, hne, List.find?_append]
  · have hb : ascii "Basic " ++ basicAuth c.username c.password ≠ [] := by
      intro e
      have := congrArg List.length e
      simp [ascii] at this
    simp [h, Header.Values, Header.Set, Header.Get, hne, List.find?_append, hb]

theorem sentRequest_Header (req : Request) :
    (sentRequest req).Header =
      match req.URL.User with
      | some u =>
        if req.Header.Get (ascii "Authorization") = [] then
          req.Header.Set (ascii "Authorization") (ascii "Basic " ++ basicAuth u.username u.password)
        else req.Header
      | none => req.Header := by
  unfold sentRequest
  cases req.URL.User with
  | none => rfl
  | some u =>
    simp only
    split <;> rfl

theorem request_Header (L : NetURL) (c : Client) (bp : BatchPoints) (q : QueryCmd) (req : Request)
    (hreq : writeRequest L c bp = .ok req ∨ queryRequest L c q = .ok req) :
    req.Header = requestHeader c := by
  rcases hreq with h | h
  · obtain ⟨u, -, hr⟩ := writeRequest_ok L c bp req h
    rw [hr]
  · obtain ⟨u, -, hr⟩ := queryRequest_ok L c q req h
    rw [hr]

/-- The path of the request URL, for a client of `NewClient` whose base URL has
a host: the joined path, made absolute. -/
theorem request_path (conf : HTTPConfig) (c : Client) (elem : Bytes) (u : URL)
    (hc : NewClient goURL conf = (some c, none)) (hh : c.url.Host ≠ []) (he : elem ≠ [])
    (hp : goURL.Parse (goURL.Format { c.url with Path := pathJoin [c.url.Path, elem] }) = .ok u) :
    u.Path = absPath (pathJoin [c.url.Path, elem]) ∧ (u.User ≠ none ↔ c.url.User ≠ none) := by
  obtain ⟨u0, hparse, hscheme, hcl⟩ := NewClient_ok goURL conf c hc
  have hurl : c.url = u0 := by rw [hcl]
  rw [hurl] at hh hp ⊢
  obtain ⟨hopq, hraw⟩ := urlParse_host_facts conf.Addr u0 hparse hh
  exact urlParse_urlString_Path { u0 with Path := pathJoin [u0.Path, elem] } u hscheme hopq hh
    (pathJoin_ne_nil _ _ he) hraw hp

/-! ## The properties of the specification -/

/-- C1: the body of the request `Write` builds is the concatenation, in input
order, over the non-nil points of `PrecisionString(precision)` followed by one
newline; nil points add nothing, so a batch without non-nil points has an empty
body; this request is the one handed to the executor. -/
theorem write_body_is_lines (L : NetURL) (c : Client) (bp : BatchPoints) (req : Request)
    (h : writeRequest L c bp = .ok req) :
    req.Body = (bp.Points.filterMap id).flatMap (fun p => p.PrecisionString bp.Precision ++ [10]) ∧
      ((∀ p ∈ bp.Points, p = none) → req.Body = []) ∧
      ∀ (σ : Type) (N : Network σ) (w : σ),
        (Write L N bp ⟨c, w⟩).1 = writeResult (N.Do c.httpClient req w).1 := by
  obtain ⟨u, -, hreq⟩ := writeRequest_ok L c bp req h
  have hb : req.Body = linesOf bp.Precision bp.Points := by rw [hreq]
  refine ⟨hb, ?_, ?_⟩
  · intro hall
    rw [hb, linesOf]
    have : bp.Points.filterMap id = [] := by
      rw [List.filterMap_eq_nil_iff]
      intro p hp
      rw [hall p hp]
      rfl
    rw [this]
    rfl
  · intro σ N w
    rw [Write_sends L N bp ⟨c, w⟩ req h]

/-- Witness of C1: on the example batch (two points around a nil entry) the
request is built and its body is the two lines. -/
theorem write_body_is_lines_witness :
    writeRequest simpleURL (exampleClient (ascii "admin") (ascii "secret")) exampleBatch =
        .ok exampleWriteRequest ∧
      exampleWriteRequest.Body = ascii "cpu v=1 ns\nmem v=2 ns\n" ∧
      exampleWriteRequest.Body =
        (exampleBatch.Points.filterMap id).flatMap
          (fun p => p.PrecisionString exampleBatch.Precision ++ [10]) :=
  ⟨by rfl, by rfl,
    (write_body_is_lines simpleURL (exampleClient (ascii "admin") (ascii "secret")) exampleBatch
      exampleWriteRequest (by rfl)).1⟩

/-- C2: when the response has a status other than 200 and 204 and its body
reads as `b`, `Write` returns an error whose message is exactly `b`, and
`Query` returns no response and an error whose message is exactly `b`. -/
theorem error_message_is_body {σ : Type} (L : NetURL) (N : Network σ) (bp : BatchPoints)
    (q : QueryCmd) (s : State σ) (resp : HTTPResponse) (b : Bytes)
    (hs : resp.StatusCode ≠ 200 ∧ resp.StatusCode ≠ 204) (hb : resp.Body = .ok b) :
    (∀ req, writeRequest L s.client bp = .ok req →
        (N.Do s.client.httpClient req s.world).1 = .ok resp →
        (Write L N bp s).1.map GoError.msg = some b) ∧
      (∀ req, queryRequest L s.client q = .ok req →
        (N.Do s.client.httpClient req s.world).1 = .ok resp →
        (Query L N q s).1.1 = none ∧ (Query L N q s).1.2.map GoError.msg = some b) := by
  constructor
  · intro req hreq hdo
    rw [Write_sends L N bp s req hreq]
    simp [hdo, writeResult, hb, hs.1, hs.2, errorsNew]
  · intro req hreq hdo
    rw [Query_sends L N q s req hreq]
    simp [hdo, queryResult, hb, hs.1, hs.2, errorsNew]

/-- Witness of C2: status 500 with body `boom` gives the error `boom` from
`Write` and from `Query`. -/
theorem error_message_is_body_witness :
    (Write simpleURL (recordingNetwork (.ok { StatusCode := 500, Body := .ok (ascii "boom") }))
        exampleBatch ⟨exampleClient (ascii "admin") (ascii "secret"), []⟩).1.map GoError.msg =
        some (ascii "boom") ∧
      (Query simpleURL (recordingNetwork (.ok { StatusCode := 500, Body := .ok (ascii "boom") }))
        exampleQuery ⟨exampleClient (ascii "admin") (ascii "secret"), []⟩).1.1 = none ∧
      (Query simpleURL (recordingNetwork (.ok { StatusCode := 500, Body := .ok (ascii "boom") }))
        exampleQuery ⟨exampleClient (ascii "admin") (ascii "secret"), []⟩).1.2.map GoError.msg =
        some (ascii "boom") :=
  have h := error_message_is_body simpleURL
    (recordingNetwork (.ok { StatusCode := 500, Body := .ok (ascii "boom") })) exampleBatch
    exampleQuery ⟨exampleClient (ascii "admin") (ascii "secret"), []⟩
    { StatusCode := 500, Body := .ok (ascii "boom") } (ascii "boom") (by decide) (by rfl)
  ⟨h.1 exampleWriteRequest (by rfl) (by rfl), h.2 exampleQueryRequest (by rfl) (by rfl)⟩

/-- Counterexample to C3: the server answers 200, reading the response body
fails with `unexpected EOF`, and `Write` returns that error, not `nil`. -/
theorem write_status_200_read_error :
    (Write simpleURL
        (recordingNetwork
          (.ok { StatusCode := 200, Body := .error (errorsNew (ascii "unexpected EOF")) }))
        exampleBatch ⟨exampleClient (ascii "admin") (ascii "secret"), []⟩).1 =
        some (errorsNew (ascii "unexpected EOF")) ∧
      (Write simpleURL
        (recordingNetwork
          (.ok { StatusCode := 200, Body := .error (errorsNew (ascii "unexpected EOF")) }))
        exampleBatch ⟨exampleClient (ascii "admin") (ascii "secret"), []⟩).1 ≠ none :=
  ⟨by rfl, by
    have h : (Write simpleURL
        (recordingNetwork
          (.ok { StatusCode := 200, Body := .error (errorsNew (ascii "unexpected EOF")) }))
        exampleBatch ⟨exampleClient (ascii "admin") (ascii "secret"), []⟩).1 =
        some (errorsNew (ascii "unexpected EOF")) := by rfl
    rw [h]
    exact Option.some_ne_none _⟩

/-- C3 (amended): when the response has status 200 or 204, `Write` returns
`nil` whatever the body contains, provided the body is read without error; when
reading the body fails, `Write` returns the read error. -/
theorem write_success_status {σ : Type} (L : NetURL) (N : Network σ) (bp : BatchPoints)
    (s : State σ) (req : Request) (resp : HTTPResponse)
    (hreq : writeRequest L s.client bp = .ok req)
    (hdo : (N.Do s.client.httpClient req s.world).1 = .ok resp)
    (hs : resp.StatusCode = 200 ∨ resp.StatusCode = 204) :
    (∀ b, resp.Body = .ok b → (Write L N bp s).1 = none) ∧
      (∀ e, resp.Body = .error e → (Write L N bp s).1 = some e) := by
  rw [Write_sends L N bp s req hreq]
  constructor
  · intro b hb
    rcases hs with h | h <;> simp [hdo, writeResult, hb, h]
  · intro e he
    simp [hdo, writeResult, he]

/-- Witness of C3 (amended): an empty batch answered with 204 and some body
text succeeds. -/
theorem write_success_status_witness :
    (Write simpleURL (recordingNetwork (.ok { StatusCode := 204, Body := .ok (ascii "ignored") }))
        { Points := [], Precision := ascii "ns", Database := ascii "my db" }
        ⟨exampleClient (ascii "admin") (ascii "secret"), []⟩).1 = none :=
  (write_success_status simpleURL
    (recordingNetwork (.ok { StatusCode := 204, Body := .ok (ascii "ignored") }))
    { Points := [], Precision := ascii "ns", Database := ascii "my db" }
    ⟨exampleClient (ascii "admin") (ascii "secret"), []⟩
    { exampleWriteRequest with Body := [] }
    { StatusCode := 204, Body := .ok (ascii "ignored") } (by rfl) (by rfl) (by decide)).1
    (ascii "ignored") (by rfl)

/-- C4: when the response has status 200 or 204 and its body reads as `b`,
whatever `b` is, `Query` returns a nil error and a response with no results
and an empty error string. -/
theorem query_success_is_empty {σ : Type} (L : NetURL) (N : Network σ) (q : QueryCmd)
    (s : State σ) (req : Request) (resp : HTTPResponse) (b : Bytes)
    (hreq : queryRequest L s.client q = .ok req)
    (hdo : (N.Do s.client.httpClient req s.world).1 = .ok resp)
    (hs : resp.StatusCode = 200 ∨ resp.StatusCode = 204) (hb : resp.Body = .ok b) :
    (Query L N q s).1 = (some { Results := [], Err := [] }, none) ∧
      ∃ r, (Query L N q s).1.1 = some r ∧ r.Results.length = 0 ∧ r.Err = [] := by
  rw [Query_sends L N q s req hreq]
  rcases hs with h | h <;> simp [hdo, queryResult, hb, h]

/-- Witness of C4: status 200 with a JSON body full of results still gives the
empty response. -/
theorem query_success_is_empty_witness :
    (Query simpleURL
        (recordingNetwork (.ok { StatusCode := 200, Body := .ok (ascii "[\x7b\"series\":[1,2,3]\x7d]") }))
        exampleQuery ⟨exampleClient (ascii "admin") (ascii "secret"), []⟩).1 =
      (some { Results := [], Err := [] }, none) :=
  (query_success_is_empty simpleURL
    (recordingNetwork (.ok { StatusCode := 200, Body := .ok (ascii "[\x7b\"series\":[1,2,3]\x7d]") }))
    exampleQuery ⟨exampleClient (ascii "admin") (ascii "secret"), []⟩ exampleQueryRequest
    { StatusCode := 200, Body := .ok (ascii "[\x7b\"series\":[1,2,3]\x7d]") }
    (ascii "[\x7b\"series\":[1,2,3]\x7d]") (by rfl) (by rfl) (by decide) (by rfl)).1

/-- C5: for an address that parses as a URL, `NewClient` returns an error iff
the parsed scheme is neither `http` nor `https`; it then returns no client and
the message is `Unsupported protocol scheme: <scheme>, your address must start
with http:// or https://`; otherwise it returns a client. So a parsed scheme
`ftp` fails and the parsed schemes `http` and `https` succeed. -/
theorem NewClient_scheme_check (L : NetURL) (conf : HTTPConfig) (u : URL)
    (hp : L.Parse conf.Addr = .ok u) :
    ((NewClient L conf).2 ≠ none ↔ ¬(u.Scheme = ascii "http" ∨ u.Scheme = ascii "https")) ∧
      ((NewClient L conf).2 ≠ none →
        (NewClient L conf).1 = none ∧
          (NewClient L conf).2.map GoError.msg =
            some (ascii "Unsupported protocol scheme: " ++ u.Scheme ++
              ascii ", your address must start with http:// or https://")) ∧
      ((NewClient L conf).2 = none → (NewClient L conf).1 ≠ none) ∧
      (u.Scheme = ascii "ftp" →
        (NewClient L conf).1 = none ∧
          (NewClient L conf).2.map GoError.msg =
            some (ascii
              "Unsupported protocol scheme: ftp, your address must start with http:// or https://")) ∧
      (u.Scheme = ascii "http" ∨ u.Scheme = ascii "https" →
        (NewClient L conf).2 = none ∧ (NewClient L conf).1 ≠ none) := by
  rw [NewClient_of_parse L conf u hp]
  by_cases hs : u.Scheme ≠ ascii "http" ∧ u.Scheme ≠ ascii "https"
  · rw [if_pos hs]
    have hn : ¬(u.Scheme = ascii "http" ∨ u.Scheme = ascii "https") := by tauto
    refine ⟨by simp [hn], fun _ => ⟨rfl, rfl⟩, by simp, ?_, fun h => absurd h hn⟩
    intro hftp
    refine ⟨rfl, ?_⟩
    rw [hftp]
    rfl
  · rw [if_neg hs]
    have hy : u.Scheme = ascii "http" ∨ u.Scheme = ascii "https" := by
      by_contra hcon
      exact hs (by tauto)
    refine ⟨by simp [hy], fun h => absurd rfl h, by simp, ?_, by simp⟩
    intro hftp
    rw [hftp] at hy
    exact absurd hy (by decide)

/-- Witness of C5: construction fails for `ftp://host` with the message naming
`ftp`, and succeeds for `http://host:8080` and `https://host`. -/
theorem NewClient_scheme_check_witness :
    ((NewClient simpleURL (exampleConfig (ascii "ftp://host") [] [])).1 = none ∧
        (NewClient simpleURL (exampleConfig (ascii "ftp://host") [] [])).2.map GoError.msg =
          some (ascii
            "Unsupported protocol scheme: ftp, your address must start with http:// or https://")) ∧
      ((NewClient simpleURL (exampleConfig (ascii "http://host:8080") [] [])).2 = none ∧
        (NewClient simpleURL (exampleConfig (ascii "http://host:8080") [] [])).1 ≠ none) ∧
      ((NewClient simpleURL (exampleConfig (ascii "https://host") [] [])).2 = none ∧
        (NewClient simpleURL (exampleConfig (ascii "https://host") [] [])).1 ≠ none) :=
  ⟨(NewClient_scheme_check simpleURL (exampleConfig (ascii "ftp://host") [] [])
      { exampleBase with Scheme := ascii "ftp", Host := ascii "host", Path := [], RawQuery := [] }
      (by rfl)).2.2.2.1 (by rfl),
    (NewClient_scheme_check simpleURL (exampleConfig (ascii "http://host:8080") [] [])
      { exampleBase with Path := [], RawQuery := [] } (by rfl)).2.2.2.2 (Or.inl (by rfl)),
    (NewClient_scheme_check simpleURL (exampleConfig (ascii "https://host") [] [])
      { exampleBase with Scheme := ascii "https", Host := ascii "host", Path := [], RawQuery := [] }
      (by rfl)).2.2.2.2 (Or.inr (by rfl))⟩

/-- C6 (amended): for a client built by `NewClient`, the request of a `Write`
or of a `Query` as the adapter builds it has an `Authorization` header iff the
configured username is not empty, whatever the password. The request as the
HTTP client sends it has one iff the username is not empty or the request URL
carries user information (with Go's `net/url` and a base URL with a host: iff
the address carries some, as `http://user:pw@host`); with an empty username the
header is then made from that user information. With a username, the only
value of the header is `Basic ` and the base64 text of `username:password`:
decoding it gives `username:password` back, and reading it as
`(*Request).BasicAuth` does gives the configured username and password when the
username has no colon. -/
theorem sent_authorization (L : NetURL) (conf : HTTPConfig) (c : Client) (bp : BatchPoints)
    (q : QueryCmd) (req : Request) (hc : NewClient L conf = (some c, none))
    (hreq : writeRequest L c bp = .ok req ∨ queryRequest L c q = .ok req) :
    (req.Header.Values (ascii "Authorization") ≠ none ↔ conf.Username ≠ []) ∧
      ((sentRequest req).Header.Values (ascii "Authorization") ≠ none ↔
        conf.Username ≠ [] ∨ req.URL.User ≠ none) ∧
      (conf.Username ≠ [] →
        (sentRequest req).Header.Values (ascii "Authorization") =
            some [ascii "Basic " ++ base64Encode (conf.Username ++ [58] ++ conf.Password)] ∧
          base64Decode (base64Encode (conf.Username ++ [58] ++ conf.Password)) =
            some (conf.Username ++ [58] ++ conf.Password) ∧
          ((58 : Byte) ∉ conf.Username →
            parseBasicAuth
                (ascii "Basic " ++ base64Encode (conf.Username ++ [58] ++ conf.Password)) =
              some (conf.Username, conf.Password))) ∧
      (conf.Username = [] → ∀ ui, req.URL.User = some ui →
        (sentRequest req).Header.Values (ascii "Authorization") =
          some [ascii "Basic " ++ base64Encode (ui.username ++ [58] ++ ui.password)]) ∧
      (L = goURL → c.url.Host ≠ [] → (req.URL.User ≠ none ↔ c.url.User ≠ none)) := by
  obtain ⟨u, -, -, hcl⟩ := NewClient_ok L conf c hc
  have hu : c.username = conf.Username := by rw [hcl]
  have hpw : c.password = conf.Password := by rw [hcl]
  have hH := request_Header L c bp q req hreq
  obtain ⟨f1, f2, f3⟩ := requestHeader_facts c
  rw [hu] at f1 f2 f3
  rw [hpw] at f2
  have hs := sentRequest_Header req
  rw [hH] at hs
  have hgo : L = goURL → c.url.Host ≠ [] → (req.URL.User ≠ none ↔ c.url.User ≠ none) := by
    intro hL hh
    subst hL
    rcases hreq with h | h
    · obtain ⟨u2, hp, hr⟩ := writeRequest_ok goURL c bp req h
      have := (request_path conf c (ascii "api/v1/write") u2 hc hh (by decide) hp).2
      rw [hr]
      exact this
    · obtain ⟨u2, hp, hr⟩ := queryRequest_ok goURL c q req h
      have := (request_path conf c (ascii "api/v1/sql") u2 hc hh (by decide) hp).2
      rw [hr]
      exact this
  by_cases hname : conf.Username = []
  · obtain ⟨g1, g2⟩ := f3 hname
    have hnone : (requestHeader c).Values (ascii "Authorization") = none := by
      by_contra hcon
      exact (f1.mp hcon) hname
    refine ⟨by rw [hH]; exact f1, ?_, fun h => absurd hname h, ?_, hgo⟩
    · rw [hs]
      cases hU : req.URL.User with
      | none => simp [hnone, hname]
      | some ui => simp [g1, g2, hname]
    · intro _ ui hU
      rw [hs, hU]
      simp only [g1, if_true, g2]
      rfl
  · obtain ⟨g1, g2⟩ := f2 hname
    have hsame : (sentRequest req).Header = requestHeader c := by
      rw [hs]
      cases req.URL.User with
      | none => rfl
      | some ui => simp [g2]
    refine ⟨by rw [hH]; exact f1, ?_, ?_, fun h => absurd h hname, hgo⟩
    · rw [hsame]
      constructor
      · intro _; exact Or.inl hname
      · intro _; exact f1.mpr hname
    · intro _
      refine ⟨by rw [hsame, g1]; rfl, base64Decode_Encode _, ?_⟩
      intro hcolon
      have := parseBasicAuth_basicAuth conf.Username conf.Password
      unfold basicAuth at this
      rw [this]
      congr 1
      rw [List.append_assoc]
      exact cut_append 58 conf.Username conf.Password hcolon

/-- Counterexample to C6: the configuration has no username and the address
`http://user:pw@h/base`; `NewClient` accepts it, and the request a `Write` and
a `Query` send carries `Authorization: Basic dXNlcjpwdw==`. -/
theorem authorization_without_username :
    userinfoConfig.Username = [] ∧
      NewClient goURL userinfoConfig = (some userinfoClient, none) ∧
      (Write goURL (transportNetwork (.ok { StatusCode := 204, Body := .ok [] })) exampleBatch
          ⟨userinfoClient, []⟩).2.world.map authorizationOf =
        [some [ascii "Basic dXNlcjpwdw=="]] ∧
      ((Query goURL (transportNetwork (.ok { StatusCode := 204, Body := .ok [] })) exampleQuery
          ⟨userinfoClient, []⟩).2.world.map authorizationOf =
        [some [ascii "Basic dXNlcjpwdw=="]]) :=
  ⟨by rfl, by rfl, by rfl, by rfl⟩

/-- Witness of C6 (amended): with the username `admin` and the password
`secret` the request sent has the one value `Basic YWRtaW46c2VjcmV0`, which
reads back as `admin` and `secret`; with an empty username and the password
`secret` the request sent has no `Authorization` header; with the username
`admin` and an empty password it has one. -/
theorem sent_authorization_witness :
    (sentRequest exampleWriteRequest).Header.Values (ascii "Authorization") =
        some [ascii "Basic YWRtaW46c2VjcmV0"] ∧
      parseBasicAuth (ascii "Basic YWRtaW46c2VjcmV0") = some (ascii "admin", ascii "secret") ∧
      (sentRequest { exampleWriteRequest with Header := ⟨[(ascii "Content-Type", [[]])]⟩ }
        ).Header.Values (ascii "Authorization") = none ∧
      (sentRequest
          { exampleQueryRequest with
            Header :=
              ⟨[(ascii "Content-Type", [[]]), (ascii "Authorization", [ascii "Basic YWRtaW46"])]⟩ }
        ).Header.Values (ascii "Authorization") ≠ none :=
  have h := (sent_authorization goURL (exampleClientConfig (ascii "admin") (ascii "secret"))
    (exampleClient (ascii "admin") (ascii "secret")) exampleBatch exampleQuery exampleWriteRequest
    (by rfl) (Or.inl (by rfl))).2.2.1 (by decide)
  ⟨h.1, h.2.2 (by decide),
    not_not.mp fun hn =>
      (((sent_authorization goURL (exampleClientConfig [] (ascii "secret"))
        (exampleClient [] (ascii "secret")) exampleBatch exampleQuery
        { exampleWriteRequest with Header := ⟨[(ascii "Content-Type", [[]])]⟩ }
        (by rfl) (Or.inl (by rfl))).2.1).mp hn).elim (fun e => e rfl) (fun e => e rfl),
    ((sent_authorization goURL (exampleClientConfig (ascii "admin") [])
      (exampleClient (ascii "admin") []) exampleBatch exampleQuery
      { exampleQueryRequest with
        Header :=
          ⟨[(ascii "Content-Type", [[]]), (ascii "Authorization", [ascii "Basic YWRtaW46"])]⟩ }
      (by rfl) (Or.inr (by rfl))).2.1).mpr (Or.inl (by decide))⟩

/-- C9: for a configuration `NewClient` accepts, the TLS configuration of the
transport is the explicit one when one is supplied (the skip-verify flag is then
not looked at) and otherwise a zero `tls.Config` with `InsecureSkipVerify` set
to the flag; the proxy function is the supplied one; the timeout of the
executor is the configured one; the executor uses this transport. -/
theorem NewClient_transport (L : NetURL) (conf : HTTPConfig) (c : Client)
    (hc : NewClient L conf = (some c, none)) :
    (∀ t, conf.TLSConfig = some t → c.transport.TLSClientConfig = some t) ∧
      (conf.TLSConfig = none →
        c.transport.TLSClientConfig =
          some { ServerName := [], InsecureSkipVerify := conf.InsecureSkipVerify,
                 MinVersion := 0, MaxVersion := 0 }) ∧
      c.transport.Proxy = conf.Proxy ∧
      c.httpClient.Timeout = conf.Timeout ∧
      c.httpClient.Transport = c.transport := by
  obtain ⟨u, -, -, hcl⟩ := NewClient_ok L conf c hc
  subst hcl
  refine ⟨?_, ?_, rfl, rfl, rfl⟩
  · intro t ht
    simp [transportOf, ht]
  · intro ht
    simp [transportOf, ht, TLSConfig.zero]

/-- Witness of C9: an explicit TLS configuration wins over the skip-verify
flag. -/
theorem NewClient_transport_witness :
    ({ exampleClient [] [] with
        transport :=
          { TLSClientConfig := some { TLSConfig.zero with ServerName := ascii "db.example" },
            Proxy := none } } : Client).transport.TLSClientConfig =
      some { ServerName := ascii "db.example", InsecureSkipVerify := false,
             MinVersion := 0, MaxVersion := 0 } :=
  (NewClient_transport simpleURL
    { exampleClientConfig [] [] with
      InsecureSkipVerify := true,
      Timeout := 30,
      TLSConfig := some { TLSConfig.zero with ServerName := ascii "db.example" } }
    { url := exampleBase, username := [], password := [],
      httpClient :=
        { Timeout := 30,
          Transport :=
            { TLSClientConfig := some { TLSConfig.zero with ServerName := ascii "db.example" },
              Proxy := none } },
      transport :=
        { TLSClientConfig := some { TLSConfig.zero with ServerName := ascii "db.example" },
          Proxy := none } }
    (by rfl)).1 _ (by rfl)

/-- C10: a client `NewClient` returns has a base URL with scheme `http` or
`https`; `Write`, `Query` and `Close` leave the client as it is; so after any
sequence of calls the base URL, username and password are the initial ones, the
scheme is still `http` or `https`, and a further `Write` or `Query` builds the
same request as on the fresh client. -/
theorem client_unchanged_by_calls {σ : Type} (L : NetURL) (N : Network σ) (conf : HTTPConfig)
    (c : Client) (hc : NewClient L conf = (some c, none)) :
    (c.url.Scheme = ascii "http" ∨ c.url.Scheme = ascii "https") ∧
      (∀ (s : State σ) (bp : BatchPoints), (Write L N bp s).2.client = s.client) ∧
      (∀ (s : State σ) (q : QueryCmd), (Query L N q s).2.client = s.client) ∧
      (∀ s : State σ, (Close N s).2.client = s.client) ∧
      ∀ (w : σ) (calls : List Call),
        (runCalls L N ⟨c, w⟩ calls).client.url = c.url ∧
          (runCalls L N ⟨c, w⟩ calls).client.username = c.username ∧
          (runCalls L N ⟨c, w⟩ calls).client.password = c.password ∧
          ((runCalls L N ⟨c, w⟩ calls).client.url.Scheme = ascii "http" ∨
            (runCalls L N ⟨c, w⟩ calls).client.url.Scheme = ascii "https") ∧
          (∀ bp, writeRequest L (runCalls L N ⟨c, w⟩ calls).client bp = writeRequest L c bp) ∧
          (∀ q, queryRequest L (runCalls L N ⟨c, w⟩ calls).client q = queryRequest L c q) := by
  obtain ⟨u, -, hs, hcl⟩ := NewClient_ok L conf c hc
  have hscheme : c.url.Scheme = ascii "http" ∨ c.url.Scheme = ascii "https" := by
    rw [hcl]; exact hs
  refine ⟨hscheme, fun s bp => Write_client L N bp s, fun s q => Query_client L N q s,
    fun _ => rfl, ?_⟩
  intro w calls
  have hrun : (runCalls L N ⟨c, w⟩ calls).client = c := runCalls_client L N calls ⟨c, w⟩
  rw [hrun]
  exact ⟨rfl, rfl, rfl, hscheme, fun _ => rfl, fun _ => rfl⟩

/-- Witness of C10: after a write, a query, a close and a second write on the
example client, the second write was sent to the same path as the first. -/
theorem client_unchanged_by_calls_witness :
    (runCalls simpleURL (recordingNetwork (.ok { StatusCode := 204, Body := .ok [] }))
        ⟨exampleClient (ascii "admin") (ascii "secret"), []⟩
        [.write exampleBatch, .query exampleQuery, .close, .write exampleBatch]).client.url =
        exampleBase ∧
      (runCalls simpleURL (recordingNetwork (.ok { StatusCode := 204, Body := .ok [] }))
        ⟨exampleClient (ascii "admin") (ascii "secret"), []⟩
        [.write exampleBatch, .query exampleQuery, .close, .write exampleBatch]).world.map
          (fun r => r.URL.Path) =
        [ascii "/base/api/v1/write", ascii "/base/api/v1/sql", ascii "/base/api/v1/write"] :=
  ⟨((client_unchanged_by_calls simpleURL
      (recordingNetwork (.ok { StatusCode := 204, Body := .ok [] }))
      (exampleClientConfig (ascii "admin") (ascii "secret"))
      (exampleClient (ascii "admin") (ascii "secret")) (by rfl)).2.2.2.2 []
      [.write exampleBatch, .query exampleQuery, .close, .write exampleBatch]).1,
    by rfl⟩

end Cnosdb
